import Mathlib

/-!
Shallow embedding of the fontbakery check layer found in
`Lib/fontbakery/profiles/adobefonts.py` and `Lib/fontbakery/profiles/name.py`.

Modelling conventions:
* A parsed font (fontTools `TTFont`) is a `Font` structure whose tables are
  `Option`-valued: `none` models an absent table, so that Python's
  `ttFont["head"]` (which raises `KeyError` when the table is absent) becomes
  `getTable` in the `Except` monad.
* A name-table record's payload is `Option String`: `some s` is a record whose
  `toUnicode()` returns `s`; `none` is a record whose `toUnicode()` raises
  `UnicodeDecodeError`.
* A check that can raise (unguarded table access, unguarded `toUnicode`)
  is embedded as `Font → Except String (List CheckResult)`; `Except.error`
  models an uncaught Python exception escaping the check.
* `Message` keeps the stable message code plus the numeric/textual values
  interpolated into the human-readable text; the prose itself is dropped
  except for plain (code-less) strings.
-/

/-- Result statuses, from `fontbakery.status`. -/
inductive Status where
  | PASS
  | FAIL
  | WARN
  | ERROR
  | SKIP
  | INFO
deriving DecidableEq, Repr

open Status

/-- A check message: either a plain string (no message code) or a coded
`Message(code, text)` where `nats`/`strs` record the values interpolated
into the text. -/
inductive FBMessage where
  | plain (text : String)
  | coded (code : String) (nats : List Nat) (strs : List String)
deriving DecidableEq, Repr

/-- One element of the result sequence a check yields. -/
abbrev CheckResult := Status × FBMessage

/-- A record of the `name` table: fontTools `NameRecord`.
`string = none` models a record whose `toUnicode()` raises
`UnicodeDecodeError`; `string = some s` models one that decodes to `s`. -/
structure NameRecord where
  platformID : Nat
  platEncID : Nat
  langID : Nat
  nameID : Nat
  string : Option String
deriving DecidableEq, Repr

/-- `NameRecord.toUnicode()`: `none` models the `UnicodeDecodeError` case. -/
def NameRecord.toUnicode (r : NameRecord) : Option String := r.string

/-- The `head` table: only the field the checks read. -/
structure HeadTable where
  unitsPerEm : Nat
deriving DecidableEq, Repr

/-- A `glyf`-table glyph: only the fields `_quick_and_dirty_glyph_is_empty`
and `check/monospace` read. -/
structure Glyph where
  isComposite : Bool
  numberOfContours : Int
deriving DecidableEq, Repr

/-- The `glyf` table: association list from glyph name to glyph. -/
structure GlyfTable where
  glyphs : List (String × Glyph)
deriving DecidableEq, Repr

/-- A CFF/CFF2 font program: per glyph name, the length of the charstring
bytecode (the only property `_quick_and_dirty_glyph_is_empty` reads),
plus the `fontNames` list read by `name/postscript_vs_cff`. -/
structure CFFData where
  charStringsByteLen : List (String × Nat)
  fontNames : List String
deriving DecidableEq, Repr

/-- The `hhea` table: only the field the checks read. -/
structure HheaTable where
  advanceWidthMax : Nat
deriving DecidableEq, Repr

/-- The `hmtx` table: glyph name to advance width (`metrics[g][0]`). -/
structure HmtxTable where
  metrics : List (String × Nat)
deriving DecidableEq, Repr

/-- PANOSE digits read by `check/monospace`. -/
structure Panose where
  bFamilyType : Nat
  bProportion : Nat
  bSpacing : Nat
deriving DecidableEq, Repr

/-- The `OS/2` table: only the field the checks read. -/
structure OS2Table where
  panose : Panose
deriving DecidableEq, Repr

/-- The `post` table: only the field the checks read. -/
structure PostTable where
  isFixedPitch : Nat
deriving DecidableEq, Repr

/-- A parsed font.  Each table is `none` when absent from the font file.
`bestCmap` models `ttFont.getBestCmap()`, an association list from Unicode
codepoint to glyph name. -/
structure Font where
  name : Option (List NameRecord)
  head : Option HeadTable
  glyf : Option GlyfTable
  cff : Option CFFData
  cff2 : Option CFFData
  hhea : Option HheaTable
  hmtx : Option HmtxTable
  os2 : Option OS2Table
  post : Option PostTable
  bestCmap : List (Nat × String)
deriving DecidableEq, Repr

/-- `ttFont[key]`: raises `KeyError` when the table is absent. -/
def getTable {α : Type} (t : Option α) (key : String) : Except String α :=
  match t with
  | some v => Except.ok v
  | none => Except.error ("KeyError: " ++ key)

/-- Association-list lookup, used for `glyf`, `hmtx` and CFF charstrings;
`none` models a Python `KeyError` on subscripting. -/
def alistLookup {α : Type} (l : List (String × α)) (k : String) : Option α :=
  match l.find? (fun p => p.1 == k) with
  | some p => some p.2
  | none => none

/-- fontTools `name.getName(nameID, platformID, platEncID, langID)`:
the first record matching all four identifiers, else `None`. -/
def getName (names : List NameRecord) (nameID platformID platEncID langID : Nat) :
    Option NameRecord :=
  names.find? (fun r =>
    r.nameID == nameID && r.platformID == platformID &&
    r.platEncID == platEncID && r.langID == langID)

/-- Python `len(s.strip()) == 0` / `not s.strip()`: the string is empty or
consists only of whitespace. -/
def pyStripIsEmpty (s : String) : Bool :=
  s.toList.all Char.isWhitespace

/-- Modelled from the spec: the `has_name_table` condition (defined in
`shared_conditions.py`, which is not part of the excerpt) is
`"name" in ttFont`. -/
def has_name_table (f : Font) : Bool := f.name.isSome

/-! ## com.adobe.fonts/check/family/consistent_upm (adobefonts.py) -/

/-- The loop of `com_adobe_fonts_check_family_consistent_upm`:
`upm_set.add(ttFont["head"].unitsPerEm)` for each font.  The Python `set`
is modelled as a duplicate-free list in first-insertion order; `ttFont["head"]`
raises `KeyError` when the `head` table is absent. -/
def collectUpm : List Font → List Nat → Except String (List Nat)
  | [], acc => Except.ok acc
  | f :: fs, acc => do
    let h ← getTable f.head "head"
    collectUpm fs (if acc.contains h.unitsPerEm then acc else acc ++ [h.unitsPerEm])

/-- Insert into a sorted list of naturals (ascending). -/
def insortNat (x : Nat) : List Nat → List Nat
  | [] => [x]
  | y :: ys => if x ≤ y then x :: y :: ys else y :: insortNat x ys

/-- Python `sorted` on a list of naturals (insertion sort). -/
def sortNats (l : List Nat) : List Nat := l.foldr insortNat []

/-- `com_adobe_fonts_check_family_consistent_upm(ttFonts)`:
collects `unitsPerEm` over all fonts; FAIL `inconsistent-upem` when more
than one distinct value, else PASS. -/
def com_adobe_fonts_check_family_consistent_upm (ttFonts : List Font) :
    Except String (List CheckResult) := do
  let upm_set ← collectUpm ttFonts []
  if upm_set.length > 1 then
    return [(FAIL, FBMessage.coded "inconsistent-upem" (sortNats upm_set) [])]
  else
    return [(PASS, FBMessage.plain "Fonts have consistent units per em.")]

/-! ## com.adobe.fonts/check/nameid_1_win_english (adobefonts.py) -/

/-- `com_adobe_fonts_check_nameid_1_win_english(ttFont, has_name_table)`:
returns a single result.  The Python function `return`s one
`(status, Message)` pair, which the framework wraps as one result. -/
def com_adobe_fonts_check_nameid_1_win_english (ttFont : Font) : CheckResult :=
  if !has_name_table ttFont then
    (FAIL, FBMessage.coded "name-table-not-found" [] [])
  else
    let names := ttFont.name.getD []
    match getName names 1 3 1 0x409 with
    | none => (FAIL, FBMessage.coded "nameid-1-not-found" [] [])
    | some nameid_1 =>
      match nameid_1.toUnicode with
      | none => (ERROR, FBMessage.coded "nameid-1-decoding-error" [] [])
      | some nameid_1_unistr =>
        if pyStripIsEmpty nameid_1_unistr then
          (FAIL, FBMessage.coded "nameid-1-empty" [] [])
        else
          (PASS, FBMessage.plain
            "Font contains a good Windows nameID 1 US-English record.")

/-! ## Constants modelled from outside the excerpt -/

/-- Modelled from the spec: nameID constants from `fontbakery.constants`
(glossary: 1 = Family Name, 4 = Full Name, 6 = PostScript Name; the
OpenType-standard 2 = Subfamily, 16 = Typographic Family,
17 = Typographic Subfamily, 21 = WWS Family). -/
def NameID_FONT_FAMILY_NAME : Nat := 1

def NameID_FONT_SUBFAMILY_NAME : Nat := 2

def NameID_FULL_FONT_NAME : Nat := 4

def NameID_POSTSCRIPT_NAME : Nat := 6

def NameID_TYPOGRAPHIC_FAMILY_NAME : Nat := 16

def NameID_TYPOGRAPHIC_SUBFAMILY_NAME : Nat := 17

def NameID_WWS_FAMILY_NAME : Nat := 21

/-- Modelled from the spec: `PlatformID.WINDOWS = 3`,
`WindowsEncodingID.UNICODE_BMP = 1`, `WindowsLanguageID.ENGLISH_USA = 0x409`
(the check rationale in `adobefonts.py` spells these out). -/
def PlatformID_WINDOWS : Nat := 3

def WindowsEncodingID_UNICODE_BMP : Nat := 1

def WindowsLanguageID_ENGLISH_USA : Nat := 0x409

/-- Modelled from the spec: `IsFixedWidth.NOT_MONOSPACED = 0` — the
`check/monospace` rationale quotes the OpenType spec: "Set to 0 if the font
is proportionally spaced, non-zero if ... monospaced". -/
def IsFixedWidth_NOT_MONOSPACED : Nat := 0

/-- Modelled from the spec: PANOSE constants from `fontbakery.constants`:
bFamilyType 2 = latin text, 3 = latin hand written, 5 = latin symbol;
bProportion 9 = monospaced; bSpacing 3 = monospaced (values quoted in the
`check/monospace` rationale and `PANOSE_expected` messages). -/
def PANOSE_Family_Type_LATIN_TEXT : Nat := 2

def PANOSE_Family_Type_LATIN_HAND_WRITTEN : Nat := 3

def PANOSE_Family_Type_LATIN_SYMBOL : Nat := 5

def PANOSE_Proportion_MONOSPACED : Nat := 9

def PANOSE_Spacing_MONOSPACED : Nat := 3

/-- Keep the first occurrence of each element, drop later duplicates.
This determinises the iteration order of a Python `set`/`Counter`; the
multiset of results never depends on the order chosen. -/
def dedupFirst {α : Type} [DecidableEq α] : List α → List α
  | [] => []
  | x :: xs => x :: (dedupFirst xs).filter (fun y => y ≠ x)

/-- Does an optional id filter accept a value?  (`None` accepts anything.) -/
def matchesOpt (filt : Option Nat) (v : Nat) : Bool :=
  match filt with
  | none => true
  | some w => v == w

/-- Modelled from the spec: `fontbakery.utils.get_name_entry_strings` is not
part of the excerpt.  Per its uses in `name.py`, it returns the decoded
(`toUnicode`) strings of all `name`-table records with the given `nameID`,
restricted to a platformID/platEncID/langID when those are given.
Records that fail to decode are skipped (no claim exercises that case). -/
def get_name_entry_strings (f : Font) (nameID : Nat)
    (platformID platEncID langID : Option Nat) : List String :=
  (f.name.getD []).filterMap (fun r =>
    if r.nameID == nameID && matchesOpt platformID r.platformID &&
        matchesOpt platEncID r.platEncID && matchesOpt langID r.langID then
      r.toUnicode
    else none)

/-! ## com.adobe.fonts/check/name/empty_records (name.py) -/

/-- The loop of `com_adobe_fonts_check_name_empty_records`:
`name_record.toUnicode()` is called unguarded, so an undecodable record
aborts the whole check with an uncaught `UnicodeDecodeError`. -/
def emptyRecordsLoop : List NameRecord → Bool → List CheckResult →
    Except String (Bool × List CheckResult)
  | [], failed, acc => Except.ok (failed, acc)
  | r :: rest, failed, acc =>
    match r.toUnicode with
    | none => Except.error "UnicodeDecodeError"
    | some s =>
      if pyStripIsEmpty s then
        emptyRecordsLoop rest true (acc ++
          [(FAIL, FBMessage.coded "empty-record"
            [r.platformID, r.platEncID, r.langID, r.nameID] [])])
      else
        emptyRecordsLoop rest failed acc

/-- `com_adobe_fonts_check_name_empty_records(ttFont)`: FAIL per empty
record, PASS when none; `ttFont['name']` and `toUnicode()` are unguarded. -/
def com_adobe_fonts_check_name_empty_records (ttFont : Font) :
    Except String (List CheckResult) := do
  let names ← getTable ttFont.name "name"
  let (failed, acc) ← emptyRecordsLoop names false []
  if !failed then
    return acc ++ [(PASS, FBMessage.plain "No empty name table records found.")]
  else
    return acc

/-! ## com.google.fonts/check/monospace (name.py) -/

/-- `glyph_metrics_stats`: externally computed condition (shared_conditions,
outside the excerpt); the check reads exactly these three fields. -/
structure GlyphMetricsStats where
  seems_monospaced : Bool
  most_common_width : Nat
  width_max : Nat
deriving DecidableEq, Repr

/-- `PANOSE_is_monospaced(panose)` from name.py. -/
def PANOSE_is_monospaced (panose : Panose) : Bool :=
  if panose.bFamilyType == PANOSE_Family_Type_LATIN_TEXT then
    panose.bProportion == PANOSE_Proportion_MONOSPACED
  else if panose.bFamilyType == PANOSE_Family_Type_LATIN_HAND_WRITTEN ||
      panose.bFamilyType == PANOSE_Family_Type_LATIN_SYMBOL then
    panose.bSpacing == PANOSE_Spacing_MONOSPACED
  else
    false

/-- `key in ttFont` for the table keys the checks use. -/
def fontHasTable (f : Font) (key : String) : Bool :=
  match key with
  | "name" => f.name.isSome
  | "head" => f.head.isSome
  | "glyf" => f.glyf.isSome
  | "CFF " => f.cff.isSome
  | "CFF2" => f.cff2.isSome
  | "hhea" => f.hhea.isSome
  | "hmtx" => f.hmtx.isSome
  | "OS/2" => f.os2.isSome
  | "post" => f.post.isSome
  | _ => false

/-- The missing-table guard at the top of `check/monospace`: one FAIL
`lacks-<key>` per required table absent from the font. -/
def monospaceMissingFails (f : Font) : List CheckResult :=
  (["glyf", "hhea", "hmtx", "OS/2", "post"].filter
    (fun key => !fontHasTable f key)).map
    (fun key => (FAIL, FBMessage.coded ("lacks-" ++ key) [] []))

/-- The list comprehension of `check/monospace`: glyphs other than
`.notdef`/`.null`/`NULL` whose advance width is neither 0 nor the most
common width.  `ttFont['hmtx'].metrics[g]` is an unguarded subscript. -/
def unusuallySpacedGlyphs (hmtxT : HmtxTable) (most_common_width : Nat) :
    List String → Except String (List String)
  | [] => Except.ok []
  | g :: gs =>
    if g == ".notdef" || g == ".null" || g == "NULL" then
      unusuallySpacedGlyphs hmtxT most_common_width gs
    else
      match alistLookup hmtxT.metrics g with
      | none => Except.error "KeyError: hmtx metrics"
      | some w => do
        let rest ← unusuallySpacedGlyphs hmtxT most_common_width gs
        if w != 0 && w != most_common_width then
          return g :: rest
        else
          return rest

/-- The body of `check/monospace` after the missing-table guard (all five
tables are present there). -/
def monospaceBody (glyfT : GlyfTable) (hheaT : HheaTable) (hmtxT : HmtxTable)
    (os2T : OS2Table) (postT : PostTable) (stats : GlyphMetricsStats) :
    Except String (List CheckResult) :=
  let widthFails : List CheckResult :=
    if hheaT.advanceWidthMax != stats.width_max then
      [(FAIL, FBMessage.coded "bad-advanceWidthMax"
        [stats.width_max, hheaT.advanceWidthMax] [])]
    else []
  if stats.seems_monospaced then do
    let r1 : List CheckResult :=
      if postT.isFixedPitch == IsFixedWidth_NOT_MONOSPACED then
        [(FAIL, FBMessage.coded "mono-bad-post-isFixedPitch"
          [postT.isFixedPitch] [])]
      else []
    let r2 : List CheckResult :=
      if !PANOSE_is_monospaced os2T.panose then
        [(FAIL, FBMessage.coded "mono-bad-panose" [os2T.panose.bFamilyType] [])]
      else []
    let num_glyphs := glyfT.glyphs.length
    let unusual ← unusuallySpacedGlyphs hmtxT stats.most_common_width
      (glyfT.glyphs.map (fun p => p.1))
    -- `outliers_ratio = float(len(...)) / num_glyphs` raises
    -- ZeroDivisionError on a glyph-less font; `ratio > 0` iff the list is
    -- non-empty, which sidesteps the floating-point value itself.
    if num_glyphs == 0 then
      Except.error "ZeroDivisionError"
    else
      let r3 : List CheckResult :=
        if unusual.length > 0 then
          [(WARN, FBMessage.coded "mono-outliers" [unusual.length] unusual)]
        else []
      let rs := widthFails ++ r1 ++ r2 ++ r3
      if rs.isEmpty then
        return [(PASS, FBMessage.coded "mono-good" [] [])]
      else
        return rs
  else
    let r1 : List CheckResult :=
      if postT.isFixedPitch != IsFixedWidth_NOT_MONOSPACED then
        [(FAIL, FBMessage.coded "bad-post-isFixedPitch" [postT.isFixedPitch] [])]
      else []
    let r2 : List CheckResult :=
      if os2T.panose.bProportion == PANOSE_Proportion_MONOSPACED then
        [(FAIL, FBMessage.coded "bad-panose" [] [])]
      else []
    let rs := widthFails ++ r1 ++ r2
    if rs.isEmpty then
      Except.ok [(PASS, FBMessage.coded "good" [] [])]
    else
      Except.ok rs

/-- `com_google_fonts_check_monospace(ttFont, glyph_metrics_stats)`:
checks for missing tables first and returns the `lacks-*` FAILs without
touching the tables; otherwise runs the branch on the (present) tables.
The catch-all arm is unreachable: the guard passed, so all five tables
are `some`. -/
def com_google_fonts_check_monospace (ttFont : Font)
    (stats : GlyphMetricsStats) : Except String (List CheckResult) :=
  let missingFails := monospaceMissingFails ttFont
  if !missingFails.isEmpty then
    Except.ok missingFails
  else
    match ttFont.glyf, ttFont.hhea, ttFont.hmtx, ttFont.os2, ttFont.post with
    | some glyfT, some hheaT, some hmtxT, some os2T, some postT =>
      monospaceBody glyfT hheaT hmtxT os2T postT stats
    | _, _, _, _, _ => Except.error "KeyError"

/-! ## com.adobe.fonts/check/find_empty_letters (adobefonts.py) -/

/-- `_quick_and_dirty_glyph_is_empty(font, glyph_name)`: glyf branch
(`True` iff not composite and zero contours), else CFF2/CFF charstring
bytecode length at most 1.  Unguarded subscripts become `Except.error`. -/
def quick_and_dirty_glyph_is_empty (font : Font) (glyph_name : String) :
    Except String Bool :=
  match font.glyf with
  | some glyfT =>
    match alistLookup glyfT.glyphs glyph_name with
    | none => Except.error "KeyError: glyf"
    | some glyph =>
      Except.ok (!glyph.isComposite && glyph.numberOfContours == 0)
  | none =>
    let top_dict : Except String CFFData :=
      match font.cff2 with
      | some c => Except.ok c
      | none =>
        match font.cff with
        | some c => Except.ok c
        | none => Except.error "KeyError: CFF "
    match top_dict with
    | Except.error e => Except.error e
    | Except.ok c =>
      match alistLookup c.charStringsByteLen glyph_name with
      | none => Except.error "KeyError: CharStrings"
      | some len => Except.ok (len ≤ 1)

/-- The letter general categories from the check body. -/
def letter_categories : List String := ["Ll", "Lm", "Lo", "Lt", "Lu"]

/-- The invisible Hangul filler codepoints from the check body. -/
def invisible_letters : List Nat := [0x115F, 0x1160, 0x3164, 0xFFA0]

/-- Modelled from the spec: `ALL_HANGUL_SYLLABLES_CODEPOINTS` (from
`fontbakery.constants`, outside the excerpt) is "the range of Korean hangul
syllable code-points", U+AC00..U+D7A3. -/
def inAllHangulSyllables (u : Nat) : Bool := 0xAC00 ≤ u && u ≤ 0xD7A3

/-- `blank_ok_set = ALL_HANGUL_SYLLABLES_CODEPOINTS -
MODERN_HANGUL_SYLLABLES_CODEPOINTS`.  The modern-syllable set lives in
`fontbakery.constants` (outside the excerpt), so it is kept abstract as a
predicate `modern`. -/
def inBlankOkSet (modern : Nat → Bool) (u : Nat) : Bool :=
  inAllHangulSyllables u && !modern u

/-- The loop of `com_adobe_fonts_check_find_empty_letters` over the cmap
items, threading `num_blank_hangul_glyphs`, `passed` and the yielded FAILs.
`category` abstracts `unicodedata.category(chr(u))`. -/
def findEmptyLettersLoop (category : Nat → String) (modern : Nat → Bool)
    (font : Font) : List (Nat × String) → Nat → Bool → List CheckResult →
    Except String (Nat × Bool × List CheckResult)
  | [], num_blank, passed, acc => Except.ok (num_blank, passed, acc)
  | (unicode_val, glyph_name) :: rest, num_blank, passed, acc =>
    match quick_and_dirty_glyph_is_empty font glyph_name with
    | Except.error e => Except.error e
    | Except.ok glyph_is_empty =>
      if glyph_is_empty && inBlankOkSet modern unicode_val then
        findEmptyLettersLoop category modern font rest (num_blank + 1) false acc
      else if glyph_is_empty && letter_categories.contains (category unicode_val)
          && !(invisible_letters.contains unicode_val) then
        findEmptyLettersLoop category modern font rest num_blank false (acc ++
          [(FAIL, FBMessage.coded "empty-letter" [unicode_val] [glyph_name])])
      else
        findEmptyLettersLoop category modern font rest num_blank passed acc

/-- `com_adobe_fonts_check_find_empty_letters(ttFont)`.  FAIL `empty-letter`
per empty letter glyph; one aggregated WARN `empty-hangul-letter` when only
blank non-modern Hangul syllables were found; PASS when nothing was found. -/
def com_adobe_fonts_check_find_empty_letters (category : Nat → String)
    (modern : Nat → Bool) (ttFont : Font) : Except String (List CheckResult) :=
  match findEmptyLettersLoop category modern ttFont ttFont.bestCmap 0 true [] with
  | Except.error e => Except.error e
  | Except.ok (num_blank_hangul_glyphs, passed, acc) =>
    if passed then
      Except.ok (acc ++ [(PASS, FBMessage.plain "No empty glyphs for letters found.")])
    else if num_blank_hangul_glyphs ≠ 0 then
      Except.ok (acc ++
        [(WARN, FBMessage.coded "empty-hangul-letter" [num_blank_hangul_glyphs] [])])
    else
      Except.ok acc

/-! ## com.google.fonts/check/name/match_familyname_fullfont (name.py) -/

/-- `sorted(set(l))` for naturals: distinct values in ascending order. -/
def sortedSet (l : List Nat) : List Nat := sortNats (dedupFirst l)

/-- The triple loop bounds of `match_familyname_fullfont`: the cartesian
product of the sorted sets of platform, encoding and language ids present
in the name table, in loop order. -/
def mffCombos (names : List NameRecord) : List (Nat × Nat × Nat) :=
  (sortedSet (names.map (fun r => r.platformID))).flatMap (fun plat_id =>
    (sortedSet (names.map (fun r => r.platEncID))).flatMap (fun enc_id =>
      (sortedSet (names.map (fun r => r.langID))).map (fun lang_id =>
        (plat_id, enc_id, lang_id))))

/-- The family-name ids tried for each combination: `FONT_FAMILY_NAME`,
`TYPOGRAPHIC_FAMILY_NAME`, `WWS_FAMILY_NAME`. -/
def familyNameIDs : List Nat :=
  [NameID_FONT_FAMILY_NAME, NameID_TYPOGRAPHIC_FAMILY_NAME, NameID_WWS_FAMILY_NAME]

/-- Python `full_name.startswith(family_name)`: the second string is a
prefix of the first (character-list prefix; `String.startsWith` computes
the same Bool). -/
def pyStartsWith (s t : String) : Bool := t.data.isPrefixOf s.data

/-- One iteration of the inner loop of `match_familyname_fullfont` for a
given (platform, encoding, language, family-name id):
* `none`: no comparison was attempted (full-name or family record absent) —
  the `continue` before `names_compared = True`;
* `some none`: a comparison was attempted and passed silently;
* `some (some r)`: a comparison was attempted and yielded the FAIL `r`. -/
def mffCompareOne (names : List NameRecord) (plat_id enc_id lang_id family_name_id : Nat) :
    Option (Option CheckResult) :=
  match getName names NameID_FULL_FONT_NAME plat_id enc_id lang_id with
  | none => none
  | some fullRec =>
    match getName names family_name_id plat_id enc_id lang_id with
    | none => none
    | some famRec =>
      some (match famRec.toUnicode with
      | none => some (FAIL, FBMessage.coded
          ("cannot-decode-nameid-" ++ toString family_name_id)
          [plat_id, enc_id, lang_id, family_name_id] [])
      | some family_name =>
        match fullRec.toUnicode with
        | none => some (FAIL, FBMessage.coded
            ("cannot-decode-nameid-" ++ toString NameID_FULL_FONT_NAME)
            [plat_id, enc_id, lang_id, family_name_id] [])
        | some full_name =>
          if !(pyStartsWith full_name family_name) then
            some (FAIL, FBMessage.coded "mismatch-font-names"
              [plat_id, enc_id, lang_id, family_name_id] [full_name, family_name])
          else
            none)

/-- The comparisons `match_familyname_fullfont` attempts, in loop order:
`none` entries are silently passed comparisons, `some` entries the FAILs
yielded.  (`names_compared` is whether this list is non-empty; `passed` is
whether it contains no `some`.) -/
def mffAttempted (names : List NameRecord) : List (Option CheckResult) :=
  (mffCombos names).flatMap (fun combo =>
    familyNameIDs.filterMap (fun family_name_id =>
      mffCompareOne names combo.1 combo.2.1 combo.2.2 family_name_id))

/-- The result sequence of `match_familyname_fullfont` once the name table
has been fetched: the yielded FAILs, or `missing-font-names` when no
comparison was attempted, or PASS when all attempted comparisons passed. -/
def mffResults (names : List NameRecord) : List CheckResult :=
  let attempted := mffAttempted names
  let fails := attempted.filterMap id
  if attempted.isEmpty then
    [(FAIL, FBMessage.coded "missing-font-names" [] [])]
  else if fails.isEmpty then
    [(PASS, FBMessage.plain "Full font name begins with the font family name.")]
  else
    fails

/-- `com_google_fonts_check_name_match_familyname_fullfont(ttFont)`.
`ttFont["name"]` is unguarded; everything after it is pure — in particular
every `UnicodeDecodeError` is caught inside the loop. -/
def com_google_fonts_check_name_match_familyname_fullfont (ttFont : Font) :
    Except String (List CheckResult) := do
  let names ← getTable ttFont.name "name"
  return mffResults names

/-! ## com.google.fonts/check/family_naming_recommendations (name.py) -/

/-- One entry of `bad_entries`: field, offending value, recommendation. -/
structure BadEntry where
  field : String
  value : String
  advice : String
deriving DecidableEq, Repr

/-- `re.compile("[^A-Za-z0-9-]").search(s)`: some character outside
ASCII letters, digits and hyphen. -/
def bad_psname_search (s : String) : Bool :=
  s.toList.any (fun c => !(c.isAlpha || c.isDigit || c == '-'))

/-- `string.count('-')`. -/
def hyphenCount (s : String) : Nat := s.toList.count '-'

/-- `com_google_fonts_check_family_naming_recommendations(ttFont)`'s
`bad_entries` list, in yield order: the two PostScript-name rules (checked
per string, in order), then the length limits per name id. -/
def familyNamingBadEntries (ttFont : Font) : List BadEntry :=
  ((get_name_entry_strings ttFont NameID_POSTSCRIPT_NAME none none none).flatMap
    (fun s =>
      (if bad_psname_search s then
        [BadEntry.mk "PostScript Name" s
          "May contain only a-zA-Z0-9 characters and an hyphen."]
      else []) ++
      (if hyphenCount s > 1 then
        [BadEntry.mk "Postscript Name" s "May contain not more than a single hyphen"]
      else [])))
  ++ ((get_name_entry_strings ttFont NameID_FULL_FONT_NAME none none none).filterMap
    (fun s => if s.length ≥ 64 then
      some (BadEntry.mk "Full Font Name" s "exceeds max length (63)") else none))
  ++ ((get_name_entry_strings ttFont NameID_POSTSCRIPT_NAME none none none).filterMap
    (fun s => if s.length ≥ 64 then
      some (BadEntry.mk "PostScript Name" s "exceeds max length (63)") else none))
  ++ ((get_name_entry_strings ttFont NameID_FONT_FAMILY_NAME none none none).filterMap
    (fun s => if s.length ≥ 32 then
      some (BadEntry.mk "Family Name" s "exceeds max length (31)") else none))
  ++ ((get_name_entry_strings ttFont NameID_FONT_SUBFAMILY_NAME none none none).filterMap
    (fun s => if s.length ≥ 32 then
      some (BadEntry.mk "Style Name" s "exceeds max length (31)") else none))
  ++ ((get_name_entry_strings ttFont NameID_TYPOGRAPHIC_FAMILY_NAME none none none).filterMap
    (fun s => if s.length ≥ 32 then
      some (BadEntry.mk "OT Family Name" s "exceeds max length (31)") else none))
  ++ ((get_name_entry_strings ttFont NameID_TYPOGRAPHIC_SUBFAMILY_NAME none none none).filterMap
    (fun s => if s.length ≥ 32 then
      some (BadEntry.mk "OT Style Name" s "exceeds max length (31)") else none))

/-- `com_google_fonts_check_family_naming_recommendations(ttFont)`: a single
INFO `bad-entries` when any entry violates the recommendations (the
markdown table text is dropped), else a single PASS. -/
def com_google_fonts_check_family_naming_recommendations (ttFont : Font) :
    List CheckResult :=
  if (familyNamingBadEntries ttFont).length > 0 then
    [(INFO, FBMessage.coded "bad-entries"
      [(familyNamingBadEntries ttFont).length] [])]
  else
    [(PASS, FBMessage.plain "Font follows the family naming recommendations.")]

/-! ## com.adobe.fonts/check/family/max_4_fonts_per_family_name (name.py) -/

/-- The `family_names` list: per font, the deduplicated
(Windows/Unicode-BMP/US-English nameID 1) family-name strings — the Python
`set(names_list)` — concatenated over all fonts.  The Python set's
unspecified iteration order is determinised to first occurrence; the
`Counter` below is order-insensitive. -/
def maxFourFamilyNames (ttFonts : List Font) : List String :=
  ttFonts.flatMap (fun ttFont =>
    dedupFirst (get_name_entry_strings ttFont NameID_FONT_FAMILY_NAME
      (some PlatformID_WINDOWS) (some WindowsEncodingID_UNICODE_BMP)
      (some WindowsLanguageID_ENGLISH_USA)))

/-- `com_adobe_fonts_check_family_max_4_fonts_per_family_name(ttFonts)`:
`Counter(family_names).items()` in first-appearance order; FAIL `too-many`
per family name carried by more than 4 fonts, PASS when there is none. -/
def com_adobe_fonts_check_family_max_4_fonts_per_family_name
    (ttFonts : List Font) : List CheckResult :=
  let family_names := maxFourFamilyNames ttFonts
  let fails := (dedupFirst family_names).filterMap (fun n =>
    if family_names.count n > 4 then
      some ((FAIL, FBMessage.coded "too-many" [family_names.count n] [n]) : CheckResult)
    else none)
  if fails.isEmpty then
    [(PASS, FBMessage.plain "There were no more than 4 fonts per family name.")]
  else
    fails

/-! ## Derived forms used by the specifications -/

deriving instance DecidableEq for Except

/-- The `unitsPerEm` of a font's `head` table (0 when the table is absent;
only used under a hypothesis that the table is present). -/
def fontUpm (f : Font) : Nat := (f.head.getD ⟨0⟩).unitsPerEm

/-- One step of the Python `set.add`. -/
def upmInsert (acc : List Nat) (v : Nat) : List Nat :=
  if acc.contains v then acc else acc ++ [v]

/-- Does `find_empty_letters` yield a FAIL for this cmap entry?  If so,
the FAIL it yields: the glyph is empty, the codepoint is not in the
blank-ok Hangul set, its category is a letter category and it is not an
invisible filler. -/
def felEntryFail (category : Nat → String) (modern : Nat → Bool) (f : Font)
    (q : Nat × String) : Option CheckResult :=
  match quick_and_dirty_glyph_is_empty f q.2 with
  | Except.ok true =>
    if !inBlankOkSet modern q.1 && letter_categories.contains (category q.1)
        && !(invisible_letters.contains q.1) then
      some (FAIL, FBMessage.coded "empty-letter" [q.1] [q.2])
    else none
  | _ => none

/-- Does this cmap entry count as a blank (non-modern) Hangul glyph? -/
def felIsBlank (modern : Nat → Bool) (f : Font) (q : Nat × String) : Bool :=
  match quick_and_dirty_glyph_is_empty f q.2 with
  | Except.ok true => inBlankOkSet modern q.1
  | _ => false

/-- Does this cmap entry clear the `passed` flag of `find_empty_letters`? -/
def felEntryBad (category : Nat → String) (modern : Nat → Bool) (f : Font)
    (q : Nat × String) : Bool :=
  felIsBlank modern f q || (felEntryFail category modern f q).isSome

/-! ## Example fonts -/

/-- A font with no tables at all. -/
def emptyFont : Font :=
  { name := none, head := none, glyf := none, cff := none, cff2 := none,
    hhea := none, hmtx := none, os2 := none, post := none, bestCmap := [] }

/-- A font carrying only a `name` table. -/
def mkNameFont (ns : List NameRecord) : Font := { emptyFont with name := some ns }

/-- A font whose Windows/Unicode/US-English nameID 1 record decodes to a
single space: non-empty, but blank after stripping. -/
def whitespaceNameFont : Font :=
  mkNameFont [⟨3, 1, 0x409, 1, some " "⟩]

/-- A font with a decodable Full Name record and an undecodable Family Name
record for the same (platform, encoding, language). -/
def undecodableFamilyFont : Font :=
  mkNameFont [⟨3, 1, 0x409, 4, some "Foo Bold"⟩, ⟨3, 1, 0x409, 1, none⟩]

/-- Full Name "ExampleSans Bold" with Family Name "ExampleSans". -/
def exampleSansGoodFont : Font :=
  mkNameFont [⟨3, 1, 0x409, 4, some "ExampleSans Bold"⟩,
              ⟨3, 1, 0x409, 1, some "ExampleSans"⟩]

/-- Full Name "Bold ExampleSans" with Family Name "ExampleSans". -/
def exampleSansBadFont : Font :=
  mkNameFont [⟨3, 1, 0x409, 4, some "Bold ExampleSans"⟩,
              ⟨3, 1, 0x409, 1, some "ExampleSans"⟩]

/-- A font whose PostScript name contains characters outside A-Za-z0-9
and hyphen. -/
def badPsNameFont : Font :=
  mkNameFont [⟨3, 1, 0x409, 6, some "Bad Name!"⟩]

/-- One Windows/Unicode-BMP/US-English family-name record. -/
def famRecord (s : String) : NameRecord := ⟨3, 1, 0x409, 1, some s⟩

/-- A synthetic family of 5 fonts, each carrying the same single family
name "FamilyName". -/
def fiveFontFamily : List Font :=
  List.replicate 5 (mkNameFont [famRecord "FamilyName"])

/-- A single font containing five duplicate records of the same family
name. -/
def dupRecordFont : Font :=
  mkNameFont (List.replicate 5 (famRecord "FamilyName"))

/-- A TrueType font whose cmap maps U+0041 to an empty glyph, U+0042 to a
glyph with contours, and U+AC01 (a Hangul syllable) to an empty glyph. -/
def emptyLetterFont : Font :=
  { emptyFont with
    glyf := some ⟨[("A", ⟨false, 0⟩), ("B", ⟨false, 2⟩), ("uniAC01", ⟨false, 0⟩)]⟩,
    bestCmap := [(0x41, "A"), (0x42, "B"), (0xAC01, "uniAC01")] }

/-- A category assignment agreeing with Unicode on the codepoints of
`emptyLetterFont`. -/
def exampleCategory : Nat → String :=
  fun u => if u == 0x41 || u == 0x42 then "Lu"
    else if u == 0xAC01 then "Lo" else "Zs"

/-- A font carrying only a `head` table with the given unitsPerEm. -/
def upmFont (u : Nat) : Font := { emptyFont with head := some ⟨u⟩ }

/-- Claim C9: on the empty list of fonts, `family/consistent_upm` yields
exactly one result, a PASS — the collected set of unitsPerEm values is
empty, which is not more than one distinct value. -/
theorem family_consistent_upm_empty_list :
    com_adobe_fonts_check_family_consistent_upm [] =
      Except.ok [(PASS, FBMessage.plain "Fonts have consistent units per em.")] ∧
    collectUpm [] [] = Except.ok [] :=
  ⟨rfl, rfl⟩

/-- Claim C1, counterexample: on a font whose Windows/Unicode/US-English
nameID 1 record decodes to a single space — a non-empty string — the check
returns FAIL `nameid-1-empty`, where the claim (FAIL `nameid-1-empty` only
when the decoded string is empty, PASS otherwise) requires PASS. -/
theorem nameid_1_win_english_whitespace_refutes :
    com_adobe_fonts_check_nameid_1_win_english whitespaceNameFont =
      (FAIL, FBMessage.coded "nameid-1-empty" [] []) ∧
    (∃ rcd, getName [⟨3, 1, 0x409, 1, some " "⟩] 1 3 1 0x409 = some rcd ∧
      rcd.toUnicode = some " ") ∧
    " " ≠ "" :=
  ⟨rfl, ⟨⟨3, 1, 0x409, 1, some " "⟩, rfl, rfl⟩, by decide⟩

/-- Claim C1, amended: `nameid_1_win_english` returns exactly one result,
which is FAIL `name-table-not-found` iff the font has no name table;
FAIL `nameid-1-not-found` iff the (1, 3, 1, 0x409) record is absent;
ERROR `nameid-1-decoding-error` iff that record cannot be decoded;
FAIL `nameid-1-empty` iff the decoded string is empty or whitespace-only;
and PASS otherwise.  The five outcomes are mutually exclusive and
exhaustive. -/
theorem nameid_1_win_english_characterization (f : Font) :
    (com_adobe_fonts_check_nameid_1_win_english f =
        (FAIL, FBMessage.coded "name-table-not-found" [] []) ↔ f.name = none) ∧
    (com_adobe_fonts_check_nameid_1_win_english f =
        (FAIL, FBMessage.coded "nameid-1-not-found" [] []) ↔
      ∃ ns, f.name = some ns ∧ getName ns 1 3 1 0x409 = none) ∧
    (com_adobe_fonts_check_nameid_1_win_english f =
        (ERROR, FBMessage.coded "nameid-1-decoding-error" [] []) ↔
      ∃ ns rcd, f.name = some ns ∧ getName ns 1 3 1 0x409 = some rcd ∧
        rcd.toUnicode = none) ∧
    (com_adobe_fonts_check_nameid_1_win_english f =
        (FAIL, FBMessage.coded "nameid-1-empty" [] []) ↔
      ∃ ns rcd s, f.name = some ns ∧ getName ns 1 3 1 0x409 = some rcd ∧
        rcd.toUnicode = some s ∧ pyStripIsEmpty s = true) ∧
    (com_adobe_fonts_check_nameid_1_win_english f =
        (PASS, FBMessage.plain
          "Font contains a good Windows nameID 1 US-English record.") ↔
      ∃ ns rcd s, f.name = some ns ∧ getName ns 1 3 1 0x409 = some rcd ∧
        rcd.toUnicode = some s ∧ pyStripIsEmpty s = false) := by
  rcases hn : f.name with _ | ns
  · simp [com_adobe_fonts_check_nameid_1_win_english, has_name_table, hn]
  · rcases hg : getName ns 1 3 1 0x409 with _ | rcd
    · simp [com_adobe_fonts_check_nameid_1_win_english, has_name_table, hn, hg]
    · rcases hs : rcd.toUnicode with _ | s
      · simp [com_adobe_fonts_check_nameid_1_win_english, has_name_table, hn, hg, hs]
      · by_cases hw : pyStripIsEmpty s = true
        · simp [com_adobe_fonts_check_nameid_1_win_english, has_name_table,
            hn, hg, hs, hw]
        · simp [com_adobe_fonts_check_nameid_1_win_english, has_name_table,
            hn, hg, hs, hw, Bool.not_eq_true] at hw ⊢

/-- Claim C3, counterexample: `family/consistent_upm` on a font that lacks
the `head` table raises an uncaught `KeyError` rather than yielding a FAIL
or ERROR verdict. -/
theorem consistent_upm_missing_head_raises :
    com_adobe_fonts_check_family_consistent_upm [emptyFont] =
      Except.error "KeyError: head" ∧
    ∀ rs : List CheckResult,
      com_adobe_fonts_check_family_consistent_upm [emptyFont] ≠ Except.ok rs := by
  refine ⟨rfl, fun rs h => ?_⟩
  exact Except.noConfusion
    ((rfl : Except.error "KeyError: head" =
      com_adobe_fonts_check_family_consistent_upm [emptyFont]).trans h)

/-- Claim C2, counterexample: in
`com.google.fonts/check/name/match_familyname_fullfont`, an undecodable
family-name record is caught but reported with FAIL status
(`cannot-decode-nameid-1`), not ERROR — refuting "never reported with a
status other than ERROR". -/
theorem match_familyname_decode_fail_not_error :
    com_google_fonts_check_name_match_familyname_fullfont undecodableFamilyFont =
      Except.ok [(FAIL, FBMessage.coded "cannot-decode-nameid-1" [3, 1, 0x409, 1] [])] ∧
    (∃ rcd, getName [⟨3, 1, 0x409, 4, some "Foo Bold"⟩, ⟨3, 1, 0x409, 1, none⟩]
        1 3 1 0x409 = some rcd ∧ rcd.toUnicode = none) ∧
    FAIL ≠ ERROR :=
  ⟨rfl, ⟨⟨3, 1, 0x409, 1, none⟩, rfl, rfl⟩, by decide⟩

/-- Bind on `Except` after a success reduces to the continuation. -/
theorem exceptBind_ok {α β : Type} (a : α) (k : α → Except String β) :
    (do let x ← Except.ok a; k x) = k a := rfl

/-- Bind on `Except` after an error propagates the error. -/
theorem exceptBind_error {α β : Type} (e : String) (k : α → Except String β) :
    (do let x ← (Except.error e : Except String α); k x) = Except.error e := rfl

/-- An undecodable record anywhere in the name table aborts the
`empty_records` loop with an uncaught exception. -/
theorem emptyRecordsLoop_error_of_undecodable (ns : List NameRecord)
    (hrec : ∃ rcd ∈ ns, rcd.toUnicode = none) :
    ∀ failed acc, ∃ e, emptyRecordsLoop ns failed acc = Except.error e := by
  induction ns with
  | nil => simp at hrec
  | cons r rest ih =>
    intro failed acc
    rcases hs : r.toUnicode with _ | s
    · exact ⟨"UnicodeDecodeError", by simp [emptyRecordsLoop, hs]⟩
    · have htail : ∃ rcd ∈ rest, rcd.toUnicode = none := by
        rcases hrec with ⟨rcd, hmem, hnone⟩
        rcases List.mem_cons.mp hmem with h | h
        · exact absurd (h ▸ hnone) (by simp [hs])
        · exact ⟨rcd, h, hnone⟩
      have hloop := ih htail
      by_cases hw : pyStripIsEmpty s = true
      · simpa [emptyRecordsLoop, hs, hw] using
          hloop true (acc ++ [(FAIL, FBMessage.coded "empty-record"
            [r.platformID, r.platEncID, r.langID, r.nameID] [])])
      · simpa [emptyRecordsLoop, hs, hw] using hloop failed acc

/-- A font with a missing `head` table anywhere in the list aborts
`collectUpm` with an uncaught exception. -/
theorem collectUpm_error_of_missing_head (l : List Font)
    (hm : ∃ g ∈ l, g.head = none) :
    ∀ acc, ∃ e, collectUpm l acc = Except.error e := by
  induction l with
  | nil => simp at hm
  | cons f fs ih =>
    intro acc
    rcases hh : f.head with _ | ht
    · exact ⟨"KeyError: head", by
        simp [collectUpm, getTable, hh, exceptBind_error]⟩
    · have htail : ∃ g ∈ fs, g.head = none := by
        rcases hm with ⟨g, hmem, hnone⟩
        rcases List.mem_cons.mp hmem with h | h
        · exact absurd (h ▸ hnone) (by simp [hh])
        · exact ⟨g, h, hnone⟩
      rcases ih htail (if acc.contains ht.unitsPerEm then acc
        else acc ++ [ht.unitsPerEm]) with ⟨e, he⟩
      exact ⟨e, by
        rw [show collectUpm (f :: fs) acc =
          (do
            let h ← getTable f.head "head"
            collectUpm fs (if acc.contains h.unitsPerEm then acc
              else acc ++ [h.unitsPerEm])) from rfl, hh]
        simpa [getTable, exceptBind_ok] using he⟩

/-- Claim C2, amended: a decode failure is caught locally in
`nameid_1_win_english` and reported as ERROR `nameid-1-decoding-error`;
in `match_familyname_fullfont` it is also caught locally but reported with
FAIL status (every yielded result of that check has FAIL status, and the
check never raises once the name table exists); `name/empty_records` does
not catch it, and the `UnicodeDecodeError` propagates out of the check. -/
theorem decode_failure_handling (f : Font) (ns : List NameRecord) :
    (f.name = some ns →
      ∃ rs, com_google_fonts_check_name_match_familyname_fullfont f =
        Except.ok rs) ∧
    (∀ p e l fid r, mffCompareOne ns p e l fid = some (some r) → r.1 = FAIL) ∧
    (∀ rcd, f.name = some ns → getName ns 1 3 1 0x409 = some rcd →
      rcd.toUnicode = none →
      com_adobe_fonts_check_nameid_1_win_english f =
        (ERROR, FBMessage.coded "nameid-1-decoding-error" [] [])) ∧
    (f.name = some ns → (∃ rcd ∈ ns, rcd.toUnicode = none) →
      ∃ e, com_adobe_fonts_check_name_empty_records f = Except.error e) := by
  refine ⟨?_, ?_, ?_, ?_⟩
  · intro hn
    exact ⟨mffResults ns, by
      simp [com_google_fonts_check_name_match_familyname_fullfont, hn,
        getTable, exceptBind_ok]⟩
  · intro p e l fid r h
    simp only [mffCompareOne] at h
    split at h
    · exact Option.noConfusion h
    · split at h
      · exact Option.noConfusion h
      · rw [Option.some.injEq] at h
        split at h
        · rw [← Option.some.inj h]
        · split at h
          · rw [← Option.some.inj h]
          · split at h
            · rw [← Option.some.inj h]
            · exact Option.noConfusion h
  · intro rcd hn hg hdec
    simp [com_adobe_fonts_check_nameid_1_win_english, has_name_table, hn,
      hg, hdec]
  · intro hn hrec
    rcases emptyRecordsLoop_error_of_undecodable ns hrec false [] with ⟨e, he⟩
    exact ⟨e, by
      simp [com_adobe_fonts_check_name_empty_records, hn, getTable,
        exceptBind_ok, he, exceptBind_error]⟩

/-- Witness for `decode_failure_handling` at concrete fonts. -/
theorem decode_failure_handling_witness :
    (∃ rs, com_google_fonts_check_name_match_familyname_fullfont
      undecodableFamilyFont = Except.ok rs) ∧
    com_adobe_fonts_check_nameid_1_win_english
        (mkNameFont [⟨3, 1, 0x409, 1, none⟩]) =
      (ERROR, FBMessage.coded "nameid-1-decoding-error" [] []) ∧
    (∃ e, com_adobe_fonts_check_name_empty_records undecodableFamilyFont =
      Except.error e) := by
  obtain ⟨h1, -, -, h4⟩ := decode_failure_handling undecodableFamilyFont
    [⟨3, 1, 0x409, 4, some "Foo Bold"⟩, ⟨3, 1, 0x409, 1, none⟩]
  obtain ⟨-, -, h3b, -⟩ := decode_failure_handling
    (mkNameFont [⟨3, 1, 0x409, 1, none⟩]) [⟨3, 1, 0x409, 1, none⟩]
  exact ⟨h1 rfl, h3b ⟨3, 1, 0x409, 1, none⟩ rfl rfl rfl,
    h4 rfl ⟨⟨3, 1, 0x409, 1, none⟩, by decide, rfl⟩⟩

/-- Claim C3, amended: `check/monospace` guards against missing tables,
yielding one FAIL `lacks-<table>` per missing required table instead of
raising, and `nameid_1_win_english` FAILs on a missing name table; but
`family/consistent_upm` and `name/empty_records` access their tables
unguarded and propagate an uncaught `KeyError` when the table is missing. -/
theorem missing_table_handling (f : Font) (stats : GlyphMetricsStats)
    (ttFonts : List Font) :
    (monospaceMissingFails f ≠ [] →
      com_google_fonts_check_monospace f stats =
        Except.ok (monospaceMissingFails f)) ∧
    (∀ r ∈ monospaceMissingFails f, r.1 = FAIL) ∧
    ((∃ g ∈ ttFonts, g.head = none) →
      ∃ e, com_adobe_fonts_check_family_consistent_upm ttFonts =
        Except.error e) ∧
    (f.name = none →
      com_adobe_fonts_check_name_empty_records f =
        Except.error "KeyError: name") ∧
    (f.name = none → com_adobe_fonts_check_nameid_1_win_english f =
      (FAIL, FBMessage.coded "name-table-not-found" [] [])) := by
  refine ⟨?_, ?_, ?_, ?_, ?_⟩
  · intro h
    have hE : (monospaceMissingFails f).isEmpty = false := by
      cases hE : (monospaceMissingFails f).isEmpty
      · rfl
      · exact absurd (List.isEmpty_iff.mp hE) h
    simp [com_google_fonts_check_monospace, hE]
  · intro r hr
    simp only [monospaceMissingFails, List.mem_map] at hr
    rcases hr with ⟨key, -, rfl⟩
    rfl
  · intro hm
    rcases collectUpm_error_of_missing_head ttFonts hm [] with ⟨e, he⟩
    exact ⟨e, by
      simp [com_adobe_fonts_check_family_consistent_upm, he, exceptBind_error]⟩
  · intro hn
    simp [com_adobe_fonts_check_name_empty_records, hn, getTable,
      exceptBind_error]
  · intro hn
    simp [com_adobe_fonts_check_nameid_1_win_english, has_name_table, hn]

/-- Witness for `missing_table_handling` at concrete inputs: a tableless
font makes `monospace` FAIL (not raise) and makes `consistent_upm`,
`empty_records` raise. -/
theorem missing_table_handling_witness :
    com_google_fonts_check_monospace emptyFont ⟨true, 0, 0⟩ =
      Except.ok (monospaceMissingFails emptyFont) ∧
    (∃ e, com_adobe_fonts_check_family_consistent_upm [emptyFont] =
      Except.error e) ∧
    com_adobe_fonts_check_name_empty_records emptyFont =
      Except.error "KeyError: name" := by
  obtain ⟨h1, -, h3, h4, -⟩ :=
    missing_table_handling emptyFont ⟨true, 0, 0⟩ [emptyFont]
  exact ⟨h1 (by decide), h3 ⟨emptyFont, by simp, rfl⟩, h4 rfl⟩

/-- When every font has a `head` table, `collectUpm` succeeds and computes
the fold of `upmInsert` over the fonts' unitsPerEm values. -/
theorem collectUpm_ok (l : List Font) :
    (∀ g ∈ l, g.head ≠ none) → ∀ acc,
      collectUpm l acc = Except.ok ((l.map fontUpm).foldl upmInsert acc) := by
  induction l with
  | nil => intro _ acc; rfl
  | cons f fs ih =>
    intro h acc
    rcases hh : f.head with _ | ht
    · exact absurd hh (h f (by simp))
    · have hrec := ih (fun g hg => h g (List.mem_cons_of_mem f hg))
        (upmInsert acc (fontUpm f))
      rw [show collectUpm (f :: fs) acc =
        (do
          let hd ← getTable f.head "head"
          collectUpm fs (if acc.contains hd.unitsPerEm then acc
            else acc ++ [hd.unitsPerEm])) from rfl, hh]
      simp only [getTable, exceptBind_ok]
      rw [show (if acc.contains ht.unitsPerEm then acc
          else acc ++ [ht.unitsPerEm]) = upmInsert acc (fontUpm f) by
        simp [upmInsert, fontUpm, hh]]
      rw [hrec]
      simp [fontUpm, hh]

/-- Membership in the `upmInsert` fold. -/
theorem upmFold_mem (l : List Nat) :
    ∀ acc x, x ∈ l.foldl upmInsert acc ↔ x ∈ acc ∨ x ∈ l := by
  induction l with
  | nil => simp
  | cons v vs ih =>
    intro acc x
    rw [List.foldl_cons, ih]
    by_cases hc : acc.contains v
    · have hv : v ∈ acc := by simpa using hc
      simp only [upmInsert, if_pos hc, List.mem_cons]
      constructor
      · rintro (h | h)
        · exact Or.inl h
        · exact Or.inr (Or.inr h)
      · rintro (h | h | h)
        · exact Or.inl h
        · exact Or.inl (h ▸ hv)
        · exact Or.inr h
    · simp only [upmInsert, if_neg hc, List.mem_append, List.mem_singleton,
        List.mem_cons]
      tauto

/-- If every value equals `v`, folding over `[v]` stays `[v]`. -/
theorem upmFold_const (l : List Nat) (v : Nat) :
    (∀ x ∈ l, x = v) → l.foldl upmInsert [v] = [v] := by
  induction l with
  | nil => intro _; rfl
  | cons w ws ih =>
    intro h
    have hw : w = v := h w (by simp)
    rw [List.foldl_cons, show upmInsert [v] w = [v] by
      simp [upmInsert, hw]]
    exact ih (fun x hx => h x (List.mem_cons_of_mem w hx))

/-- A list with two distinct members has more than one element. -/
theorem one_lt_length_of_two_mem {α : Type} {L : List α} {a b : α}
    (ha : a ∈ L) (hb : b ∈ L) (hab : a ≠ b) : 1 < L.length := by
  cases L with
  | nil => simp at ha
  | cons x t =>
    cases t with
    | nil =>
      rw [List.mem_singleton] at ha hb
      exact absurd (ha.trans hb.symm) hab
    | cons y t2 => simp [List.length_cons]

/-- Claim C4: on a non-empty list of fonts (each with a `head` table),
`family/consistent_upm` yields exactly one result; it is the PASS iff all
fonts share a single unitsPerEm value, and when more than one distinct
value exists the single result is the FAIL `inconsistent-upem`. -/
theorem family_consistent_upm_pass_iff (f : Font) (fs : List Font)
    (h : ∀ g ∈ f :: fs, g.head ≠ none) :
    ∃ rs, com_adobe_fonts_check_family_consistent_upm (f :: fs) =
        Except.ok rs ∧
      rs.length = 1 ∧
      (rs = [(PASS, FBMessage.plain "Fonts have consistent units per em.")] ↔
        ∀ g ∈ f :: fs, fontUpm g = fontUpm f) ∧
      ((¬ ∀ g ∈ f :: fs, fontUpm g = fontUpm f) →
        rs = [(FAIL, FBMessage.coded "inconsistent-upem"
          (sortNats (((f :: fs).map fontUpm).foldl upmInsert [])) [])]) := by
  have hcol := collectUpm_ok (f :: fs) h []
  set S := ((f :: fs).map fontUpm).foldl upmInsert [] with hS
  by_cases hall : ∀ g ∈ f :: fs, fontUpm g = fontUpm f
  · have hSv : S = [fontUpm f] := by
      rw [hS, List.map_cons, List.foldl_cons,
        show upmInsert [] (fontUpm f) = [fontUpm f] from rfl]
      exact upmFold_const _ _ (fun x hx => by
        rcases List.mem_map.mp hx with ⟨g, hg, rfl⟩
        exact hall g (List.mem_cons_of_mem f hg))
    refine ⟨[(PASS, FBMessage.plain "Fonts have consistent units per em.")],
      ?_, rfl, iff_of_true rfl hall, fun hna => absurd hall hna⟩
    simp only [com_adobe_fonts_check_family_consistent_upm, hcol,
      exceptBind_ok, hSv]
    simp
    rfl
  · have hex : ∃ g ∈ f :: fs, fontUpm g ≠ fontUpm f := by
      push_neg at hall
      exact hall
    obtain ⟨g, hgmem, hgne⟩ := hex
    have hmemS : ∀ x ∈ (f :: fs).map fontUpm, x ∈ S := fun x hx =>
      (upmFold_mem _ [] x).mpr (Or.inr hx)
    have h1 : fontUpm f ∈ S := hmemS _ (List.mem_map.mpr ⟨f, by simp, rfl⟩)
    have h2 : fontUpm g ∈ S := hmemS _ (List.mem_map.mpr ⟨g, hgmem, rfl⟩)
    have hlen : 1 < S.length := one_lt_length_of_two_mem h2 h1 hgne
    refine ⟨[(FAIL, FBMessage.coded "inconsistent-upem" (sortNats S) [])],
      ?_, rfl, iff_of_false (by simp) hall, fun _ => rfl⟩
    simp only [com_adobe_fonts_check_family_consistent_upm, hcol,
      exceptBind_ok]
    simp [hlen]
    rfl

/-- Witness for `family_consistent_upm_pass_iff` on a two-font family with
equal unitsPerEm. -/
theorem family_consistent_upm_witness :
    (∀ g ∈ [upmFont 1000, upmFont 1000], g.head ≠ none) ∧
    com_adobe_fonts_check_family_consistent_upm [upmFont 1000, upmFont 1000] =
      Except.ok [(PASS, FBMessage.plain "Fonts have consistent units per em.")] := by
  have hh : ∀ g ∈ [upmFont 1000, upmFont 1000], g.head ≠ none := by decide
  obtain ⟨rs, h1, -, h3, -⟩ :=
    family_consistent_upm_pass_iff (upmFont 1000) [upmFont 1000] hh
  exact ⟨hh, by rw [← h3.mpr (by decide)]; exact h1⟩

/-- Membership is preserved by `dedupFirst`. -/
theorem dedupFirst_mem {α : Type} [DecidableEq α] (l : List α) (a : α) :
    a ∈ dedupFirst l ↔ a ∈ l := by
  induction l with
  | nil => simp [dedupFirst]
  | cons x xs ih =>
    simp only [dedupFirst, List.mem_cons, List.mem_filter, ih,
      decide_eq_true_eq]
    by_cases hax : a = x
    · simp [hax]
    · simp [hax]

/-- `dedupFirst` yields a duplicate-free list. -/
theorem dedupFirst_nodup {α : Type} [DecidableEq α] (l : List α) :
    (dedupFirst l).Nodup := by
  induction l with
  | nil => simp [dedupFirst]
  | cons x xs ih =>
    simp only [dedupFirst]
    refine List.nodup_cons.mpr ⟨?_, ih.filter _⟩
    intro hmem
    have hx := (List.mem_filter.mp hmem).2
    simp at hx

/-- Counting in a `filterMap` counts the preimages. -/
theorem count_filterMap_eq_countP {α β : Type} [BEq β] [LawfulBEq β]
    [DecidableEq β] (g : α → Option β) (l : List α) (b : β) :
    (l.filterMap g).count b = l.countP (fun a => decide (g a = some b)) := by
  induction l with
  | nil => rfl
  | cons x xs ih =>
    rcases hg : g x with _ | y
    · rw [List.filterMap_cons_none hg, List.countP_cons, ih, hg]
      simp
    · simp only [List.filterMap_cons_some hg, List.countP_cons,
        List.count_cons, ih, hg]
      by_cases hyb : y = b
      · simp [hyb]
      · simp [hyb, Ne.symm hyb]

/-- Counting a conjunction of "equals `n`" with a fixed condition. -/
theorem countP_eq_and_fixed {α : Type} [DecidableEq α] (l : List α) (n : α)
    (C : Bool) : l.countP (fun m => decide (m = n) && C) =
      if C then l.count n else 0 := by
  cases C
  · rw [show (fun m => decide (m = n) && false) = (fun _ : α => false) from
      funext (fun m => by simp), List.countP_false]
    simp
  · rw [if_pos rfl, show l.count n = l.countP (fun m => m == n) from rfl]
    exact List.countP_congr (fun x _ => by simp)

/-- Claim C10: `family/max_4_fonts_per_family_name` deduplicates family
names within each font before counting: each font's deduplicated name list
counts any name at most once, so a name's total count is bounded by the
number of fonts, and a single font with five duplicate records of one
family name PASSes. -/
theorem max4_deduplicates_within_font :
    (∀ f n, (dedupFirst (get_name_entry_strings f NameID_FONT_FAMILY_NAME
        (some PlatformID_WINDOWS) (some WindowsEncodingID_UNICODE_BMP)
        (some WindowsLanguageID_ENGLISH_USA))).count n ≤ 1) ∧
    (∀ ttFonts n, (maxFourFamilyNames ttFonts).count n ≤ ttFonts.length) ∧
    com_adobe_fonts_check_family_max_4_fonts_per_family_name [dupRecordFont] =
      [(PASS, FBMessage.plain
        "There were no more than 4 fonts per family name.")] := by
  refine ⟨?_, ?_, rfl⟩
  · intro f n
    exact List.nodup_iff_count_le_one.mp (dedupFirst_nodup _) n
  · intro ttFonts n
    induction ttFonts with
    | nil => simp [maxFourFamilyNames]
    | cons f fs ih =>
      rw [show maxFourFamilyNames (f :: fs) =
        dedupFirst (get_name_entry_strings f NameID_FONT_FAMILY_NAME
          (some PlatformID_WINDOWS) (some WindowsEncodingID_UNICODE_BMP)
          (some WindowsLanguageID_ENGLISH_USA)) ++ maxFourFamilyNames fs from
        List.flatMap_cons f fs _, List.count_append]
      have h1 := List.nodup_iff_count_le_one.mp (dedupFirst_nodup
        (get_name_entry_strings f NameID_FONT_FAMILY_NAME
          (some PlatformID_WINDOWS) (some WindowsEncodingID_UNICODE_BMP)
          (some WindowsLanguageID_ENGLISH_USA))) n
      simp only [List.length_cons]
      omega

/-- Claim C7: `family/max_4_fonts_per_family_name` yields the PASS exactly
when no family name is counted for more than 4 fonts; for each family name
counted more than 4 times it yields exactly one FAIL `too-many` citing the
count; and on the synthetic 5-font family sharing one name it yields
exactly one FAIL citing count 5. -/
theorem max4_fonts_per_family_characterization :
    (∀ ttFonts,
      (com_adobe_fonts_check_family_max_4_fonts_per_family_name ttFonts =
          [(PASS, FBMessage.plain
            "There were no more than 4 fonts per family name.")] ↔
        ∀ n ∈ maxFourFamilyNames ttFonts,
          (maxFourFamilyNames ttFonts).count n ≤ 4) ∧
      (∀ n, (com_adobe_fonts_check_family_max_4_fonts_per_family_name
            ttFonts).count
          ((FAIL, FBMessage.coded "too-many"
            [(maxFourFamilyNames ttFonts).count n] [n]) : CheckResult) =
        if n ∈ maxFourFamilyNames ttFonts ∧
            4 < (maxFourFamilyNames ttFonts).count n then 1 else 0)) ∧
    com_adobe_fonts_check_family_max_4_fonts_per_family_name fiveFontFamily =
      [(FAIL, FBMessage.coded "too-many" [5] ["FamilyName"])] := by
  refine ⟨fun ttFonts => ?_, rfl⟩
  set fam := maxFourFamilyNames ttFonts with hfam
  set F := (dedupFirst fam).filterMap (fun m =>
    if fam.count m > 4 then
      some ((FAIL, FBMessage.coded "too-many" [fam.count m] [m]) : CheckResult)
    else none) with hFdef
  have hcheck : com_adobe_fonts_check_family_max_4_fonts_per_family_name
      ttFonts =
      if F.isEmpty then
        [(PASS, FBMessage.plain
          "There were no more than 4 fonts per family name.")]
      else F := rfl
  have hFnil : F = [] ↔ ∀ n ∈ fam, fam.count n ≤ 4 := by
    rw [hFdef, List.filterMap_eq_nil_iff]
    constructor
    · intro h n hn
      have hx := h n ((dedupFirst_mem _ n).mpr hn)
      by_contra hgt
      push_neg at hgt
      rw [if_pos hgt] at hx
      exact Option.noConfusion hx
    · intro h m hm
      exact if_neg (not_lt.mpr (h m ((dedupFirst_mem _ m).mp hm)))
  have hFfail : ∀ r ∈ F, r.1 = FAIL := by
    intro r hr
    rcases List.mem_filterMap.mp hr with ⟨m, hm, hpm⟩
    by_cases h4 : fam.count m > 4
    · rw [if_pos h4] at hpm
      rw [← Option.some.inj hpm]
    · rw [if_neg h4] at hpm
      exact Option.noConfusion hpm
  constructor
  · by_cases hem : F = []
    · rw [hcheck, if_pos (List.isEmpty_iff.mpr hem)]
      exact iff_of_true rfl (hFnil.mp hem)
    · rw [hcheck, if_neg (fun h => hem (List.isEmpty_iff.mp h))]
      refine iff_of_false ?_ (fun hall => hem (hFnil.mpr hall))
      intro hFeq
      have hP : ((PASS, FBMessage.plain
          "There were no more than 4 fonts per family name.") : CheckResult)
          ∈ F := by
        rw [hFeq]
        simp
      exact Status.noConfusion (hFfail _ hP)
  · intro n
    by_cases hem : F = []
    · rw [hcheck, if_pos (List.isEmpty_iff.mpr hem)]
      have hcond : ¬(n ∈ fam ∧ 4 < fam.count n) := by
        rintro ⟨hmem, hgt⟩
        exact absurd (hFnil.mp hem n hmem) (not_le.mpr hgt)
      rw [if_neg hcond, List.count_eq_zero]
      intro hmem
      simp at hmem
    · rw [hcheck, if_neg (fun h => hem (List.isEmpty_iff.mp h)), hFdef,
        count_filterMap_eq_countP]
      have hpq : ∀ m ∈ dedupFirst fam,
          (decide ((if fam.count m > 4 then
            some ((FAIL, FBMessage.coded "too-many" [fam.count m] [m]) :
              CheckResult) else none) =
            some ((FAIL, FBMessage.coded "too-many" [fam.count n] [n]) :
              CheckResult)) = true) ↔
          ((decide (m = n) && decide (4 < fam.count n)) = true) := by
        intro m _
        by_cases hmn : m = n
        · subst hmn
          by_cases h4 : fam.count m > 4
          · simp [h4]
          · simp [h4]
        · by_cases h4 : fam.count m > 4
          · simp [h4, hmn]
          · simp [h4, hmn]
      rw [List.countP_congr hpq, countP_eq_and_fixed]
      by_cases h4 : 4 < fam.count n
      · have hmemfam : n ∈ fam := by
          have hpos : 0 < fam.count n := by omega
          exact List.count_pos_iff.mp hpos
        rw [if_pos (by simp [h4]), if_pos ⟨hmemfam, h4⟩]
        exact List.count_eq_one_of_mem (dedupFirst_nodup fam)
          ((dedupFirst_mem fam n).mpr hmemfam)
      · rw [if_neg (by simp [h4]), if_neg (fun hc => absurd hc.2 h4)]

/-- Claim C8, counterexample: a violating name entry (PostScript name with
characters outside A-Za-z0-9 and hyphen) is reported with INFO status, not
FAIL or WARN as the claim states. -/
theorem family_naming_info_not_fail_warn :
    com_google_fonts_check_family_naming_recommendations badPsNameFont =
      [(INFO, FBMessage.coded "bad-entries" [1] [])] ∧
    (∀ r ∈ com_google_fonts_check_family_naming_recommendations badPsNameFont,
      r.1 ≠ FAIL ∧ r.1 ≠ WARN) ∧
    bad_psname_search "Bad Name!" = true := by decide

/-- A conditional `filterMap` is empty iff no element satisfies the
condition. -/
theorem filterMapIf_eq_nil_iff {α β : Type} (l : List α) (P : α → Prop)
    [DecidablePred P] (h : α → β) :
    (l.filterMap (fun s => if P s then some (h s) else none)) = [] ↔
      ∀ s ∈ l, ¬ P s := by
  rw [List.filterMap_eq_nil_iff]
  constructor
  · intro hh s hs hP
    have hx := hh s hs
    rw [if_pos hP] at hx
    exact Option.noConfusion hx
  · intro hh s hs
    exact if_neg (hh s hs)

/-- The PostScript-name pass of `family_naming_recommendations` yields no
entry iff every PostScript name passes both the charset rule and the
hyphen rule. -/
theorem psEntries_eq_nil_iff (l : List String) :
    (l.flatMap (fun s =>
      (if bad_psname_search s then
        [BadEntry.mk "PostScript Name" s
          "May contain only a-zA-Z0-9 characters and an hyphen."]
      else []) ++
      (if hyphenCount s > 1 then
        [BadEntry.mk "Postscript Name" s
          "May contain not more than a single hyphen"]
      else []))) = [] ↔
    ∀ s ∈ l, ¬ bad_psname_search s = true ∧ ¬ hyphenCount s > 1 := by
  rw [List.flatMap_eq_nil_iff]
  constructor
  · intro h s hs
    rcases List.append_eq_nil.mp (h s hs) with ⟨h1, h2⟩
    constructor
    · intro hb
      rw [if_pos hb] at h1
      exact List.noConfusion h1
    · intro hh
      rw [if_pos hh] at h2
      exact List.noConfusion h2
  · intro h s hs
    rw [if_neg (h s hs).1, if_neg (h s hs).2]
    rfl

/-- Claim C8, amended: `family_naming_recommendations` PASSes exactly when
no entry violates the limits (PostScript name charset and hyphen rules,
63-character limit on Full Font Name and PostScript Name, 31-character
limit on Family, Subfamily, Typographic Family and Typographic Subfamily
names); when some entry violates them, the single report is emitted with
INFO status `bad-entries`. -/
theorem family_naming_recommendations_characterization (f : Font) :
    (com_google_fonts_check_family_naming_recommendations f =
        [(PASS, FBMessage.plain
          "Font follows the family naming recommendations.")] ↔
      ¬ ((∃ s ∈ get_name_entry_strings f NameID_POSTSCRIPT_NAME none none none,
            bad_psname_search s = true) ∨
         (∃ s ∈ get_name_entry_strings f NameID_POSTSCRIPT_NAME none none none,
            hyphenCount s > 1) ∨
         (∃ s ∈ get_name_entry_strings f NameID_FULL_FONT_NAME none none none,
            s.length ≥ 64) ∨
         (∃ s ∈ get_name_entry_strings f NameID_POSTSCRIPT_NAME none none none,
            s.length ≥ 64) ∨
         (∃ s ∈ get_name_entry_strings f NameID_FONT_FAMILY_NAME none none none,
            s.length ≥ 32) ∨
         (∃ s ∈ get_name_entry_strings f NameID_FONT_SUBFAMILY_NAME
            none none none, s.length ≥ 32) ∨
         (∃ s ∈ get_name_entry_strings f NameID_TYPOGRAPHIC_FAMILY_NAME
            none none none, s.length ≥ 32) ∨
         (∃ s ∈ get_name_entry_strings f NameID_TYPOGRAPHIC_SUBFAMILY_NAME
            none none none, s.length ≥ 32))) ∧
    ((familyNamingBadEntries f).length > 0 →
      com_google_fonts_check_family_naming_recommendations f =
        [(INFO, FBMessage.coded "bad-entries"
          [(familyNamingBadEntries f).length] [])]) := by
  have hnil : familyNamingBadEntries f = [] ↔
      ¬ ((∃ s ∈ get_name_entry_strings f NameID_POSTSCRIPT_NAME none none none,
            bad_psname_search s = true) ∨
         (∃ s ∈ get_name_entry_strings f NameID_POSTSCRIPT_NAME none none none,
            hyphenCount s > 1) ∨
         (∃ s ∈ get_name_entry_strings f NameID_FULL_FONT_NAME none none none,
            s.length ≥ 64) ∨
         (∃ s ∈ get_name_entry_strings f NameID_POSTSCRIPT_NAME none none none,
            s.length ≥ 64) ∨
         (∃ s ∈ get_name_entry_strings f NameID_FONT_FAMILY_NAME none none none,
            s.length ≥ 32) ∨
         (∃ s ∈ get_name_entry_strings f NameID_FONT_SUBFAMILY_NAME
            none none none, s.length ≥ 32) ∨
         (∃ s ∈ get_name_entry_strings f NameID_TYPOGRAPHIC_FAMILY_NAME
            none none none, s.length ≥ 32) ∨
         (∃ s ∈ get_name_entry_strings f NameID_TYPOGRAPHIC_SUBFAMILY_NAME
            none none none, s.length ≥ 32)) := by
    simp only [familyNamingBadEntries, List.append_eq_nil,
      psEntries_eq_nil_iff, filterMapIf_eq_nil_iff]
    push_neg
    simp only [imp_and, forall_and]
    tauto
  refine ⟨?_, ?_⟩
  · rw [← hnil]
    by_cases hB : familyNamingBadEntries f = []
    · refine iff_of_true ?_ hB
      simp [com_google_fonts_check_family_naming_recommendations, hB]
    · refine iff_of_false ?_ hB
      intro hEq
      have hlen : (familyNamingBadEntries f).length > 0 :=
        List.length_pos.mpr hB
      rw [com_google_fonts_check_family_naming_recommendations,
        if_pos hlen] at hEq
      simp at hEq
  · intro hlen
    rw [com_google_fonts_check_family_naming_recommendations, if_pos hlen]

/-- Closed form of the `find_empty_letters` loop: when every glyph lookup
succeeds, the loop returns the blank-Hangul count, the conjunction of
`passed` with "no bad entry", and the accumulated `empty-letter` FAILs. -/
theorem findEmptyLettersLoop_spec (category : Nat → String)
    (modern : Nat → Bool) (f : Font) (l : List (Nat × String))
    (hok : ∀ q ∈ l, ∃ b,
      quick_and_dirty_glyph_is_empty f q.2 = Except.ok b) :
    ∀ num_blank passed acc,
      findEmptyLettersLoop category modern f l num_blank passed acc =
        Except.ok
          (num_blank + l.countP (felIsBlank modern f),
           passed && !(l.any (felEntryBad category modern f)),
           acc ++ l.filterMap (felEntryFail category modern f)) := by
  induction l with
  | nil => intro n p acc; simp [findEmptyLettersLoop]
  | cons q rest ih =>
    intro n p acc
    obtain ⟨b, hb⟩ := hok q (by simp)
    have ih' := ih (fun x hx => hok x (List.mem_cons_of_mem q hx))
    obtain ⟨u, g⟩ := q
    cases b with
    | false =>
      have h1 : felIsBlank modern f (u, g) = false := by simp [felIsBlank, hb]
      have h2 : felEntryFail category modern f (u, g) = none := by
        simp [felEntryFail, hb]
      have h3 : felEntryBad category modern f (u, g) = false := by
        simp [felEntryBad, h1, h2]
      rw [show findEmptyLettersLoop category modern f ((u, g) :: rest) n p acc =
        findEmptyLettersLoop category modern f rest n p acc from by
          simp [findEmptyLettersLoop, hb]]
      rw [ih' n p acc, List.countP_cons, List.any_cons, List.filterMap_cons,
        h1, h2, h3]
      simp
    | true =>
      by_cases hbl : inBlankOkSet modern u = true
      · have h1 : felIsBlank modern f (u, g) = true := by
          simp [felIsBlank, hb, hbl]
        have h2 : felEntryFail category modern f (u, g) = none := by
          simp [felEntryFail, hb, hbl]
        have h3 : felEntryBad category modern f (u, g) = true := by
          simp [felEntryBad, h1]
        rw [show findEmptyLettersLoop category modern f ((u, g) :: rest)
            n p acc =
          findEmptyLettersLoop category modern f rest (n + 1) false acc from by
            simp [findEmptyLettersLoop, hb, hbl]]
        rw [ih' (n + 1) false acc, List.countP_cons, List.any_cons,
          List.filterMap_cons, h1, h2, h3]
        simp only [Except.ok.injEq, Prod.mk.injEq]
        refine ⟨by simp; omega, by simp, by simp⟩
      · rw [Bool.not_eq_true] at hbl
        have h1 : felIsBlank modern f (u, g) = false := by
          simp [felIsBlank, hb, hbl]
        by_cases hcat : category u ∈ letter_categories
        · by_cases hinv : u ∈ invisible_letters
          · have h2 : felEntryFail category modern f (u, g) = none := by
              simp [felEntryFail, hb, hbl, hinv]
            have h3 : felEntryBad category modern f (u, g) = false := by
              simp [felEntryBad, h1, h2]
            rw [show findEmptyLettersLoop category modern f ((u, g) :: rest)
                n p acc =
              findEmptyLettersLoop category modern f rest n p acc from by
                simp [findEmptyLettersLoop, hb, hbl, hinv]]
            rw [ih' n p acc, List.countP_cons, List.any_cons,
              List.filterMap_cons, h1, h2, h3]
            simp
          · have h2 : felEntryFail category modern f (u, g) =
                some (FAIL, FBMessage.coded "empty-letter" [u] [g]) := by
              simp [felEntryFail, hb, hbl, hcat, hinv]
            have h3 : felEntryBad category modern f (u, g) = true := by
              simp [felEntryBad, h2]
            rw [show findEmptyLettersLoop category modern f ((u, g) :: rest)
                n p acc =
              findEmptyLettersLoop category modern f rest n false (acc ++
                [(FAIL, FBMessage.coded "empty-letter" [u] [g])]) from by
                simp [findEmptyLettersLoop, hb, hbl, hcat, hinv]]
            rw [ih' n false (acc ++
              [(FAIL, FBMessage.coded "empty-letter" [u] [g])]),
              List.countP_cons, List.any_cons, List.filterMap_cons, h1, h2, h3]
            simp
        · have h2 : felEntryFail category modern f (u, g) = none := by
            simp [felEntryFail, hb, hbl, hcat]
          have h3 : felEntryBad category modern f (u, g) = false := by
            simp [felEntryBad, h1, h2]
          rw [show findEmptyLettersLoop category modern f ((u, g) :: rest)
              n p acc =
            findEmptyLettersLoop category modern f rest n p acc from by
              simp [findEmptyLettersLoop, hb, hbl, hcat]]
          rw [ih' n p acc, List.countP_cons, List.any_cons,
            List.filterMap_cons, h1, h2, h3]
          simp

/-- When `felEntryFail` fires: the glyph is empty, the codepoint is outside
the blank-ok Hangul set, its category is a letter category, it is not an
invisible filler, and the result is the `empty-letter` FAIL. -/
theorem felEntryFail_some_iff (category : Nat → String) (modern : Nat → Bool)
    (f : Font) (q : Nat × String) (r : CheckResult) :
    felEntryFail category modern f q = some r ↔
      quick_and_dirty_glyph_is_empty f q.2 = Except.ok true ∧
      inBlankOkSet modern q.1 = false ∧
      category q.1 ∈ letter_categories ∧
      q.1 ∉ invisible_letters ∧
      r = (FAIL, FBMessage.coded "empty-letter" [q.1] [q.2]) := by
  unfold felEntryFail
  rcases hq : quick_and_dirty_glyph_is_empty f q.2 with e | b
  · simp [hq]
  · cases b with
    | false => simp [hq]
    | true =>
      by_cases hbl : inBlankOkSet modern q.1 = true
      · simp [hq, hbl]
      · rw [Bool.not_eq_true] at hbl
        by_cases hcat : category q.1 ∈ letter_categories
        · by_cases hinv : q.1 ∈ invisible_letters
          · simp [hq, hbl, hcat, hinv]
          · simp [hq, hbl, hcat, hinv, eq_comm]
        · simp [hq, hbl, hcat]

/-- Every result accumulated by the `find_empty_letters` loop is a FAIL. -/
theorem mem_felFails_fail {category : Nat → String} {modern : Nat → Bool}
    {f : Font} {l : List (Nat × String)} {r : CheckResult}
    (hr : r ∈ l.filterMap (felEntryFail category modern f)) : r.1 = FAIL := by
  obtain ⟨q, -, hs⟩ := List.mem_filterMap.mp hr
  rw [((felEntryFail_some_iff category modern f q r).mp hs).2.2.2.2]

/-- The `empty-letter` FAIL for (u, g) is accumulated iff the cmap maps u
to g, the glyph is empty, u is not blank-ok Hangul, u is a letter and u is
not an invisible filler. -/
theorem felFails_target_mem (category : Nat → String) (modern : Nat → Bool)
    (f : Font) (l : List (Nat × String)) (u : Nat) (g : String) :
    ((FAIL, FBMessage.coded "empty-letter" [u] [g]) ∈
        l.filterMap (felEntryFail category modern f)) ↔
      ((u, g) ∈ l ∧ quick_and_dirty_glyph_is_empty f g = Except.ok true ∧
        inBlankOkSet modern u = false ∧
        category u ∈ letter_categories ∧ u ∉ invisible_letters) := by
  rw [List.mem_filterMap]
  constructor
  · rintro ⟨q, hq, hs⟩
    obtain ⟨h1, h2, h3, h4, h5⟩ :=
      (felEntryFail_some_iff category modern f q _).mp hs
    have hqu : q = (u, g) := by
      simp only [Prod.mk.injEq, FBMessage.coded.injEq, List.cons.injEq,
        and_true, true_and] at h5
      exact Prod.ext h5.1.symm h5.2.symm
    subst hqu
    exact ⟨hq, h1, h2, h3, h4⟩
  · rintro ⟨hmem, h1, h2, h3, h4⟩
    exact ⟨(u, g), hmem,
      (felEntryFail_some_iff category modern f (u, g) _).mpr
        ⟨h1, h2, h3, h4, rfl⟩⟩

/-- Claim C5: `find_empty_letters` yields one FAIL `empty-letter` per cmap
entry whose glyph is heuristically empty and whose codepoint is a letter
(per the category assignment), except that invisible fillers are never
reported and blank-ok Hangul codepoints are aggregated into at most one
WARN `empty-hangul-letter` carrying their count; the PASS is yielded
exactly when no empty letter and no blank Hangul glyph was found. -/
theorem find_empty_letters_characterization (category : Nat → String)
    (modern : Nat → Bool) (f : Font)
    (hok : ∀ q ∈ f.bestCmap, ∃ b,
      quick_and_dirty_glyph_is_empty f q.2 = Except.ok b) :
    ∃ rs, com_adobe_fonts_check_find_empty_letters category modern f =
        Except.ok rs ∧
      rs.filter (fun r => r.1 == FAIL) =
        f.bestCmap.filterMap (felEntryFail category modern f) ∧
      (∀ u g, ((FAIL, FBMessage.coded "empty-letter" [u] [g]) ∈ rs ↔
        ((u, g) ∈ f.bestCmap ∧
          quick_and_dirty_glyph_is_empty f g = Except.ok true ∧
          inBlankOkSet modern u = false ∧
          category u ∈ letter_categories ∧ u ∉ invisible_letters))) ∧
      (rs.filter (fun r => r.1 == WARN)).length ≤ 1 ∧
      (∀ k, (WARN, FBMessage.coded "empty-hangul-letter" [k] []) ∈ rs →
        k = f.bestCmap.countP (felIsBlank modern f) ∧ 0 < k) ∧
      (0 < f.bestCmap.countP (felIsBlank modern f) →
        (WARN, FBMessage.coded "empty-hangul-letter"
          [f.bestCmap.countP (felIsBlank modern f)] []) ∈ rs) ∧
      ((∃ m, (PASS, m) ∈ rs) ↔
        (f.bestCmap.filterMap (felEntryFail category modern f) = [] ∧
         f.bestCmap.countP (felIsBlank modern f) = 0)) := by
  have hloop := findEmptyLettersLoop_spec category modern f f.bestCmap hok
    0 true []
  rw [Nat.zero_add, Bool.true_and, List.nil_append] at hloop
  have hcheck : com_adobe_fonts_check_find_empty_letters category modern f =
      (if (!(f.bestCmap.any (felEntryBad category modern f))) = true then
        Except.ok (f.bestCmap.filterMap (felEntryFail category modern f) ++
          [(PASS, FBMessage.plain "No empty glyphs for letters found.")])
      else if f.bestCmap.countP (felIsBlank modern f) ≠ 0 then
        Except.ok (f.bestCmap.filterMap (felEntryFail category modern f) ++
          [(WARN, FBMessage.coded "empty-hangul-letter"
            [f.bestCmap.countP (felIsBlank modern f)] [])])
      else
        Except.ok (f.bestCmap.filterMap (felEntryFail category modern f))) := by
    simp only [com_adobe_fonts_check_find_empty_letters, hloop]
  by_cases hA : f.bestCmap.any (felEntryBad category modern f) = true
  · have hnotall := List.any_eq_true.mp hA
    by_cases hNB : f.bestCmap.countP (felIsBlank modern f) = 0
    · -- FAILs only, no blank Hangul
      have hFLne : f.bestCmap.filterMap (felEntryFail category modern f)
          ≠ [] := by
        obtain ⟨q, hq, hbad⟩ := hnotall
        simp only [felEntryBad, Bool.or_eq_true] at hbad
        rcases hbad with hbl | hfs
        · exact absurd (List.countP_pos_iff.mpr ⟨q, hq, hbl⟩) (by omega)
        · intro hFL
          rw [Option.isSome_iff_exists] at hfs
          obtain ⟨r, hr⟩ := hfs
          exact Option.noConfusion
            ((List.filterMap_eq_nil_iff.mp hFL q hq).symm.trans hr)
      refine ⟨f.bestCmap.filterMap (felEntryFail category modern f),
        ?_, ?_, ?_, ?_, ?_, ?_, ?_⟩
      · rw [hcheck, if_neg (by simp [hA]), if_neg (by simp [hNB])]
      · exact List.filter_eq_self.mpr (fun r hr => by
          rw [mem_felFails_fail hr]; rfl)
      · intro u g
        exact felFails_target_mem category modern f f.bestCmap u g
      · rw [show (f.bestCmap.filterMap
            (felEntryFail category modern f)).filter
            (fun r => r.1 == WARN) = [] from List.filter_eq_nil_iff.mpr
            (fun r hr => by rw [mem_felFails_fail hr]; simp)]
        simp
      · intro k hk
        exact absurd (mem_felFails_fail hk) (by simp)
      · intro hpos
        exact absurd hNB (by omega)
      · refine iff_of_false ?_ (fun h => hFLne h.1)
        rintro ⟨m, hm⟩
        exact absurd (mem_felFails_fail hm) (by simp)
    · -- FAILs plus one aggregated WARN
      refine ⟨f.bestCmap.filterMap (felEntryFail category modern f) ++
        [(WARN, FBMessage.coded "empty-hangul-letter"
          [f.bestCmap.countP (felIsBlank modern f)] [])],
        ?_, ?_, ?_, ?_, ?_, ?_, ?_⟩
      · rw [hcheck, if_neg (by simp [hA]), if_pos hNB]
      · rw [List.filter_append, List.filter_eq_self.mpr
          (fun r hr => by rw [mem_felFails_fail hr]; rfl)]
        simp
      · intro u g
        rw [List.mem_append]
        rw [show ((FAIL, FBMessage.coded "empty-letter" [u] [g]) ∈
          [((WARN, FBMessage.coded "empty-hangul-letter"
            [f.bestCmap.countP (felIsBlank modern f)] []) : CheckResult)]) ↔
          False from by simp]
        rw [or_false]
        exact felFails_target_mem category modern f f.bestCmap u g
      · rw [List.filter_append, List.filter_eq_nil_iff.mpr
          (fun r hr => by rw [mem_felFails_fail hr]; simp)]
        simp
      · intro k hk
        rcases List.mem_append.mp hk with h | h
        · exact absurd (mem_felFails_fail h) (by simp)
        · rw [List.mem_singleton] at h
          simp only [Prod.mk.injEq, FBMessage.coded.injEq, List.cons.injEq,
            and_true, true_and] at h
          refine ⟨h, ?_⟩
          omega
      · intro hpos
        exact List.mem_append_right _ (by simp)
      · refine iff_of_false ?_ (fun h => hNB h.2)
        rintro ⟨m, hm⟩
        rcases List.mem_append.mp hm with h | h
        · exact absurd (mem_felFails_fail h) (by simp)
        · rw [List.mem_singleton] at h
          exact absurd h (by simp)
  · -- no bad entry at all: the single PASS
    rw [Bool.not_eq_true] at hA
    have hclean := List.any_eq_false.mp hA
    have hFLnil : f.bestCmap.filterMap (felEntryFail category modern f)
        = [] := by
      rw [List.filterMap_eq_nil_iff]
      intro q hq
      have hb := hclean q hq
      simp only [felEntryBad, Bool.or_eq_true, not_or, Bool.not_eq_true] at hb
      rcases hff : felEntryFail category modern f q with _ | r
      · rfl
      · exact absurd (hff ▸ hb.2) (by simp)
    have hNB0 : f.bestCmap.countP (felIsBlank modern f) = 0 := by
      rw [List.countP_eq_zero]
      intro q hq
      have hb := hclean q hq
      simp only [felEntryBad, Bool.or_eq_true, not_or, Bool.not_eq_true] at hb
      simp [hb.1]
    refine ⟨[(PASS, FBMessage.plain "No empty glyphs for letters found.")],
      ?_, ?_, ?_, ?_, ?_, ?_, ?_⟩
    · rw [hcheck, if_pos (by simp [hA]), hFLnil, List.nil_append]
    · rw [hFLnil]
      simp
    · intro u g
      refine iff_of_false (by simp) ?_
      rintro ⟨hmem, h1, h2, h3, h4⟩
      have := List.filterMap_eq_nil_iff.mp hFLnil (u, g) hmem
      rw [(felEntryFail_some_iff category modern f (u, g)
        (FAIL, FBMessage.coded "empty-letter" [u] [g])).mpr
          ⟨h1, h2, h3, h4, rfl⟩] at this
      exact Option.noConfusion this
    · simp
    · intro k hk
      rw [List.mem_singleton] at hk
      exact absurd hk (by simp)
    · intro hpos
      exact absurd hNB0 (by omega)
    · exact iff_of_true ⟨FBMessage.plain "No empty glyphs for letters found.",
        by simp⟩ ⟨hFLnil, hNB0⟩

/-- Witness for `find_empty_letters_characterization` at a concrete font
with one empty letter glyph and one empty Hangul-syllable glyph. -/
theorem find_empty_letters_witness :
    ∃ rs, com_adobe_fonts_check_find_empty_letters exampleCategory
        (fun _ => false) emptyLetterFont = Except.ok rs ∧
      rs.filter (fun r => r.1 == FAIL) =
        emptyLetterFont.bestCmap.filterMap
          (felEntryFail exampleCategory (fun _ => false) emptyLetterFont) := by
  have hok : ∀ q ∈ emptyLetterFont.bestCmap, ∃ b,
      quick_and_dirty_glyph_is_empty emptyLetterFont q.2 = Except.ok b := by
    intro q hq
    have hq' : q ∈ [((0x41 : Nat), "A"), ((0x42 : Nat), "B"),
        ((0xAC01 : Nat), "uniAC01")] := hq
    rcases List.mem_cons.mp hq' with rfl | hq'
    · exact ⟨true, rfl⟩
    rcases List.mem_cons.mp hq' with rfl | hq'
    · exact ⟨false, rfl⟩
    rcases List.mem_cons.mp hq' with rfl | hq'
    · exact ⟨true, rfl⟩
    · exact absurd hq' (by simp)
  obtain ⟨rs, h1, h2, -, -, -, -, -⟩ := find_empty_letters_characterization
    exampleCategory (fun _ => false) emptyLetterFont hok
  exact ⟨rs, h1, h2⟩

/-- Membership in an insertion step. -/
theorem mem_insortNat (x y : Nat) (l : List Nat) :
    x ∈ insortNat y l ↔ x = y ∨ x ∈ l := by
  induction l with
  | nil => simp [insortNat]
  | cons z zs ih =>
    simp only [insortNat]
    by_cases h : y ≤ z
    · simp [h]
    · simp only [if_neg h, List.mem_cons, ih]
      tauto

/-- Membership is preserved by sorting. -/
theorem mem_sortNats (x : Nat) (l : List Nat) :
    x ∈ sortNats l ↔ x ∈ l := by
  induction l with
  | nil => simp [sortNats]
  | cons y ys ih =>
    simp only [sortNats, List.foldr_cons] at ih ⊢
    rw [mem_insortNat, ih, List.mem_cons]

/-- Membership in `sorted(set(l))`. -/
theorem mem_sortedSet (x : Nat) (l : List Nat) :
    x ∈ sortedSet l ↔ x ∈ l := by
  rw [sortedSet, mem_sortNats, dedupFirst_mem]

/-- What a successful `getName` means: the record is in the table and
carries exactly the requested identifiers. -/
theorem getName_some_spec {ns : List NameRecord} {nid p e l : Nat}
    {r : NameRecord} (h : getName ns nid p e l = some r) :
    r ∈ ns ∧ r.nameID = nid ∧ r.platformID = p ∧ r.platEncID = e ∧
      r.langID = l := by
  unfold getName at h
  have hmem := List.mem_of_find?_eq_some h
  have hpred := List.find?_some h
  simp only [Bool.and_eq_true, beq_iff_eq] at hpred
  exact ⟨hmem, hpred.1.1.1, hpred.1.1.2, hpred.1.2, hpred.2⟩

/-- Any (platform, encoding, language) triple carried by a record found by
`getName` is enumerated by the triple loop of `match_familyname_fullfont`. -/
theorem combo_mem_of_getName {ns : List NameRecord} {nid p e l : Nat}
    {r : NameRecord} (h : getName ns nid p e l = some r) :
    (p, e, l) ∈ mffCombos ns := by
  obtain ⟨hmem, -, hp, he, hl⟩ := getName_some_spec h
  unfold mffCombos
  refine List.mem_flatMap.mpr ⟨p, ?_, ?_⟩
  · exact (mem_sortedSet p _).mpr (List.mem_map.mpr ⟨r, hmem, hp⟩)
  · refine List.mem_flatMap.mpr ⟨e, ?_, ?_⟩
    · exact (mem_sortedSet e _).mpr (List.mem_map.mpr ⟨r, hmem, he⟩)
    · exact List.mem_map.mpr ⟨l,
        (mem_sortedSet l _).mpr (List.mem_map.mpr ⟨r, hmem, hl⟩), rfl⟩

/-- Every FAIL the `match_familyname_fullfont` loop yields has FAIL
status. -/
theorem mffCompareOne_fail {ns : List NameRecord} {p e l fid : Nat}
    {r : CheckResult} (h : mffCompareOne ns p e l fid = some (some r)) :
    r.1 = FAIL := by
  simp only [mffCompareOne] at h
  split at h
  · exact Option.noConfusion h
  · split at h
    · exact Option.noConfusion h
    · rw [Option.some.injEq] at h
      split at h
      · rw [← Option.some.inj h]
      · split at h
        · rw [← Option.some.inj h]
        · split at h
          · rw [← Option.some.inj h]
          · exact Option.noConfusion h

/-- Membership in the FAIL list of `match_familyname_fullfont`. -/
theorem mem_mffFails_iff (ns : List NameRecord) (r : CheckResult) :
    r ∈ (mffAttempted ns).filterMap id ↔
      ∃ p e l fid, (p, e, l) ∈ mffCombos ns ∧ fid ∈ familyNameIDs ∧
        mffCompareOne ns p e l fid = some (some r) := by
  rw [List.mem_filterMap]
  constructor
  · rintro ⟨a, ha, hid⟩
    obtain ⟨combo, hcombo, hfidmem⟩ := List.mem_flatMap.mp ha
    obtain ⟨fid, hfid, hcmpr⟩ := List.mem_filterMap.mp hfidmem
    refine ⟨combo.1, combo.2.1, combo.2.2, fid, hcombo, hfid, ?_⟩
    rw [hcmpr]
    exact congrArg some hid
  · rintro ⟨p, e, l, fid, hc, hf, hcmp⟩
    exact ⟨some r, List.mem_flatMap.mpr ⟨(p, e, l), hc,
      List.mem_filterMap.mpr ⟨fid, hf, hcmp⟩⟩, rfl⟩

/-- Characterization of a FAIL-producing comparison when the involved
records decode: it is exactly a mismatch of a decoded Full Name against a
decoded family name. -/
theorem mffCompareOne_some_some_iff (ns : List NameRecord)
    (hdec : ∀ r ∈ ns, r.string ≠ none) (p e l fid : Nat) (r : CheckResult) :
    mffCompareOne ns p e l fid = some (some r) ↔
      ∃ full fam fullS famS,
        getName ns NameID_FULL_FONT_NAME p e l = some full ∧
        getName ns fid p e l = some fam ∧
        full.string = some fullS ∧ fam.string = some famS ∧
        pyStartsWith fullS famS = false ∧
        r = (FAIL, FBMessage.coded "mismatch-font-names" [p, e, l, fid]
          [fullS, famS]) := by
  rcases h4 : getName ns NameID_FULL_FONT_NAME p e l with _ | full
  · rw [show mffCompareOne ns p e l fid = none from by
      simp [mffCompareOne, h4]]
    simp [h4]
  · rcases hf : getName ns fid p e l with _ | fam
    · rw [show mffCompareOne ns p e l fid = none from by
        simp [mffCompareOne, h4, hf]]
      simp [hf]
    · have hfulls : full.string ≠ none := hdec full (getName_some_spec h4).1
      have hfams : fam.string ≠ none := hdec fam (getName_some_spec hf).1
      rcases hfs : full.string with _ | fullS
      · exact absurd hfs hfulls
      rcases hms : fam.string with _ | famS
      · exact absurd hms hfams
      by_cases hsw : pyStartsWith fullS famS = true
      · rw [show mffCompareOne ns p e l fid = some none from by
          simp [mffCompareOne, h4, hf, NameRecord.toUnicode, hfs, hms, hsw]]
        simp [h4, hf, hfs, hms, hsw]
      · rw [Bool.not_eq_true] at hsw
        rw [show mffCompareOne ns p e l fid =
          some (some (FAIL, FBMessage.coded "mismatch-font-names"
            [p, e, l, fid] [fullS, famS])) from by
          simp [mffCompareOne, h4, hf, NameRecord.toUnicode, hfs, hms, hsw]]
        simp [h4, hf, hfs, hms, hsw]
        exact eq_comm

/-- A comparison is attempted exactly when both records exist. -/
theorem mffCompareOne_isSome {ns : List NameRecord} {p e l fid : Nat}
    {full fam : NameRecord}
    (h4 : getName ns NameID_FULL_FONT_NAME p e l = some full)
    (hf : getName ns fid p e l = some fam) :
    ∃ x, mffCompareOne ns p e l fid = some x := by
  simp [mffCompareOne, h4, hf]

/-- Claim C6: for every (platform, encoding, language, family-name id)
combination whose Full Name and family-name records exist and decode,
`match_familyname_fullfont` yields FAIL `mismatch-font-names` exactly when
the Full Name does not start with the Family Name, and yields the PASS
exactly when every such comparison succeeds; "ExampleSans Bold" vs
"ExampleSans" PASSes and "Bold ExampleSans" vs "ExampleSans" FAILs. -/
theorem match_familyname_fullfont_claim (f : Font) (ns : List NameRecord)
    (hns : f.name = some ns)
    (hdec : ∀ r ∈ ns, r.string ≠ none)
    (hcmp : ∃ p e l fid full fam, fid ∈ familyNameIDs ∧
      getName ns NameID_FULL_FONT_NAME p e l = some full ∧
      getName ns fid p e l = some fam) :
    (∃ rs, com_google_fonts_check_name_match_familyname_fullfont f =
        Except.ok rs ∧
      (∀ p e l fid fullS famS,
        ((FAIL, FBMessage.coded "mismatch-font-names" [p, e, l, fid]
            [fullS, famS]) ∈ rs ↔
          (fid ∈ familyNameIDs ∧
           ∃ full fam, getName ns NameID_FULL_FONT_NAME p e l = some full ∧
             getName ns fid p e l = some fam ∧
             full.string = some fullS ∧ fam.string = some famS ∧
             pyStartsWith fullS famS = false))) ∧
      ((∃ m, (PASS, m) ∈ rs) ↔
        (∀ p e l fid full fam fullS famS, fid ∈ familyNameIDs →
          getName ns NameID_FULL_FONT_NAME p e l = some full →
          getName ns fid p e l = some fam →
          full.string = some fullS → fam.string = some famS →
          pyStartsWith fullS famS = true))) ∧
    com_google_fonts_check_name_match_familyname_fullfont
        exampleSansGoodFont =
      Except.ok [(PASS, FBMessage.plain
        "Full font name begins with the font family name.")] ∧
    com_google_fonts_check_name_match_familyname_fullfont exampleSansBadFont =
      Except.ok [(FAIL, FBMessage.coded "mismatch-font-names"
        [3, 1, 0x409, 1] ["Bold ExampleSans", "ExampleSans"])] := by
  have hgood : com_google_fonts_check_name_match_familyname_fullfont
      exampleSansGoodFont =
      Except.ok [(PASS, FBMessage.plain
        "Full font name begins with the font family name.")] := by decide
  have hbad : com_google_fonts_check_name_match_familyname_fullfont
      exampleSansBadFont =
      Except.ok [(FAIL, FBMessage.coded "mismatch-font-names"
        [3, 1, 0x409, 1] ["Bold ExampleSans", "ExampleSans"])] := by decide
  refine ⟨?_, hgood, hbad⟩
  have hchk : com_google_fonts_check_name_match_familyname_fullfont f =
      Except.ok (mffResults ns) := by
    unfold com_google_fonts_check_name_match_familyname_fullfont
    rw [hns]
    rfl
  obtain ⟨p0, e0, l0, fid0, full0, fam0, hfid0, h40, hf0⟩ := hcmp
  have hatt : mffAttempted ns ≠ [] := by
    obtain ⟨x, hx⟩ := mffCompareOne_isSome h40 hf0
    intro hnil
    have hmem : x ∈ mffAttempted ns := List.mem_flatMap.mpr
      ⟨(p0, e0, l0), combo_mem_of_getName h40,
        List.mem_filterMap.mpr ⟨fid0, hfid0, hx⟩⟩
    rw [hnil] at hmem
    exact absurd hmem (List.not_mem_nil x)
  have hattE : (mffAttempted ns).isEmpty = false := by
    cases hE : (mffAttempted ns).isEmpty
    · rfl
    · exact absurd (List.isEmpty_iff.mp hE) hatt
  by_cases hF : (mffAttempted ns).filterMap id = []
  · have hres : mffResults ns = [(PASS, FBMessage.plain
        "Full font name begins with the font family name.")] := by
      simp [mffResults, hattE, hF]
    refine ⟨mffResults ns, hchk, ?_, ?_⟩
    · intro p e l fid fullS famS
      rw [hres]
      refine iff_of_false (by simp) ?_
      rintro ⟨hfid, full, fam, h1, h2, h3, hx4, h5⟩
      have hsome : mffCompareOne ns p e l fid = some (some
          (FAIL, FBMessage.coded "mismatch-font-names" [p, e, l, fid]
            [fullS, famS])) :=
        (mffCompareOne_some_some_iff ns hdec p e l fid _).mpr
          ⟨full, fam, fullS, famS, h1, h2, h3, hx4, h5, rfl⟩
      have hmem := (mem_mffFails_iff ns _).mpr
        ⟨p, e, l, fid, combo_mem_of_getName h1, hfid, hsome⟩
      rw [hF] at hmem
      exact absurd hmem (List.not_mem_nil _)
    · rw [hres]
      refine iff_of_true ⟨FBMessage.plain
        "Full font name begins with the font family name.", by simp⟩ ?_
      intro p e l fid full fam fullS famS hfid h1 h2 h3 hx4
      by_contra hsw
      rw [Bool.not_eq_true] at hsw
      have hsome := (mffCompareOne_some_some_iff ns hdec p e l fid _).mpr
        ⟨full, fam, fullS, famS, h1, h2, h3, hx4, hsw, rfl⟩
      have hmem := (mem_mffFails_iff ns _).mpr
        ⟨p, e, l, fid, combo_mem_of_getName h1, hfid, hsome⟩
      rw [hF] at hmem
      exact absurd hmem (List.not_mem_nil _)
  · have hFE : ((mffAttempted ns).filterMap id).isEmpty = false := by
      cases hE : ((mffAttempted ns).filterMap id).isEmpty
      · rfl
      · exact absurd (List.isEmpty_iff.mp hE) hF
    have hres : mffResults ns = (mffAttempted ns).filterMap id := by
      simp [mffResults, hattE, hFE]
    refine ⟨mffResults ns, hchk, ?_, ?_⟩
    · intro p e l fid fullS famS
      rw [hres, mem_mffFails_iff]
      constructor
      · rintro ⟨p', e', l', fid', hc', hf', hcmp'⟩
        obtain ⟨full, fam, fullS', famS', h1, h2, h3, hx4, h5, h6⟩ :=
          (mffCompareOne_some_some_iff ns hdec p' e' l' fid' _).mp hcmp'
        simp only [Prod.mk.injEq, FBMessage.coded.injEq, List.cons.injEq,
          and_true, true_and] at h6
        obtain ⟨⟨hp, he, hl, hfd⟩, hfs', hms'⟩ := h6
        subst hp
        subst he
        subst hl
        subst hfd
        subst hfs'
        subst hms'
        exact ⟨hf', full, fam, h1, h2, h3, hx4, h5⟩
      · rintro ⟨hfid, full, fam, h1, h2, h3, hx4, h5⟩
        exact ⟨p, e, l, fid, combo_mem_of_getName h1, hfid,
          (mffCompareOne_some_some_iff ns hdec p e l fid _).mpr
            ⟨full, fam, fullS, famS, h1, h2, h3, hx4, h5, rfl⟩⟩
    · rw [hres]
      refine iff_of_false ?_ ?_
      · rintro ⟨m, hm⟩
        obtain ⟨p, e, l, fid, -, -, hcmp'⟩ := (mem_mffFails_iff ns _).mp hm
        exact absurd (mffCompareOne_fail hcmp') (by simp)
      · intro hall
        apply hF
        rw [List.eq_nil_iff_forall_not_mem]
        intro r hr
        obtain ⟨p, e, l, fid, hc, hfid, hcmp'⟩ := (mem_mffFails_iff ns _).mp hr
        obtain ⟨full, fam, fullS, famS, h1, h2, h3, hx4, h5, -⟩ :=
          (mffCompareOne_some_some_iff ns hdec p e l fid _).mp hcmp'
        exact absurd (hall p e l fid full fam fullS famS hfid h1 h2 h3 hx4)
          (by simp [h5])

/-- Witness for `match_familyname_fullfont_claim` at the ExampleSans
font: the hypotheses hold and the PASS is characterized. -/
theorem match_familyname_fullfont_witness :
    ∃ rs, com_google_fonts_check_name_match_familyname_fullfont
        exampleSansGoodFont = Except.ok rs ∧ ∃ m, (PASS, m) ∈ rs := by
  obtain ⟨⟨rs, h1, -, h3⟩, -, -⟩ := match_familyname_fullfont_claim
    exampleSansGoodFont
    [⟨3, 1, 0x409, 4, some "ExampleSans Bold"⟩,
     ⟨3, 1, 0x409, 1, some "ExampleSans"⟩]
    rfl (by decide)
    ⟨3, 1, 0x409, 1, ⟨3, 1, 0x409, 4, some "ExampleSans Bold"⟩,
     ⟨3, 1, 0x409, 1, some "ExampleSans"⟩, by decide, rfl, rfl⟩
  refine ⟨rs, h1, h3.mpr ?_⟩
  intro p e l fid full fam fullS famS hfid h1' h2' h3' h4'
  obtain ⟨hmemF, hnidF, -, -, -⟩ := getName_some_spec h1'
  obtain ⟨hmemM, hnidM, -, -, -⟩ := getName_some_spec h2'
  have hfull : full = ⟨3, 1, 0x409, 4, some "ExampleSans Bold"⟩ := by
    rcases List.mem_cons.mp hmemF with h | h
    · exact h
    rcases List.mem_cons.mp h with h' | h'
    · rw [h'] at hnidF
      simp [NameID_FULL_FONT_NAME] at hnidF
    · exact absurd h' (List.not_mem_nil full)
  have hfam : fam = ⟨3, 1, 0x409, 1, some "ExampleSans"⟩ := by
    rcases List.mem_cons.mp hmemM with h | h
    · rw [h] at hnidM
      have h4fid : (4 : Nat) = fid := hnidM
      rw [← h4fid] at hfid
      simp [familyNameIDs, NameID_FONT_FAMILY_NAME,
        NameID_TYPOGRAPHIC_FAMILY_NAME, NameID_WWS_FAMILY_NAME] at hfid
    rcases List.mem_cons.mp h with h' | h'
    · exact h'
    · exact absurd h' (List.not_mem_nil fam)
  rw [hfull] at h3'
  rw [hfam] at h4'
  cases Option.some.inj h3'
  cases Option.some.inj h4'
  rfl
